import Mathlib

/-!
# Verification of the opencode-planpilot task engine and orchestrator

Shallow embedding of the planpilot hierarchical task store (`lib/app.ts`,
`lib/models.ts`, `lib/util.ts`, `lib/errors.ts`), the rule engine
(`lib/config.ts`) and the auto-continue orchestrator (`index.ts`).

Modelling conventions:
* SQLite tables are lists of row structures; `SELECT ... WHERE` is `List.filter`
  / `List.find?`, `ORDER BY` is an explicit insertion sort on the queried key,
  `COUNT(*)` is `List.length` of the filtered list.  The physical order of rows
  inside a table list is never observable because every read either filters,
  counts, or sorts.
* `AUTOINCREMENT` primary keys are modelled by per-table counters in the `DB`
  state (`nextPlanId`, `nextStepId`, `nextGoalId`).
* Each engine operation runs inside one transaction; an operation is a function
  `DB → Except Err (result × DB)`, and an error leaves the pre-state in force
  (rollback).  `applyOp` below realises exactly that.
* Timestamp bookkeeping (`created_at`, `updated_at`, `last_session_id`,
  `last_cwd`, `Date.now()`) is elided from the store model: no verified claim
  depends on it.  The orchestrator model instead takes the current time as an
  explicit `now : Nat` parameter where `index.ts` reads `Date.now()`.
-/

namespace Planpilot

/-- `PlanStatus` / `StepStatus` / `GoalStatus` from `lib/models.ts` — all are
`"todo" | "done"`. -/
inductive Status
  | todo
  | done
  deriving DecidableEq, Repr

/-- `StepExecutor` from `lib/models.ts`: `"ai" | "human"`. -/
inductive Executor
  | ai
  | human
  deriving DecidableEq, Repr

/-- Row of the `plans` table (`PlanRow` in `lib/models.ts`); comment and
timestamp bookkeeping fields elided. -/
structure PlanR where
  id : Nat
  title : String
  content : String
  status : Status
  comment : Option String
  deriving DecidableEq, Repr

/-- Row of the `steps` table (`StepRow` in `lib/models.ts`); timestamps
elided.  The `comment` field may carry a wait marker (see `parseWaitUntil`). -/
structure StepR where
  id : Nat
  plan_id : Nat
  content : String
  status : Status
  executor : Executor
  sort_order : Nat
  comment : Option String
  deriving DecidableEq, Repr

/-- Row of the `goals` table (`GoalRow` in `lib/models.ts`); timestamps
elided. -/
structure GoalR where
  id : Nat
  step_id : Nat
  content : String
  status : Status
  comment : Option String
  deriving DecidableEq, Repr

/-- Row of the `active_plan` table (`ActivePlanRow`); the surrogate `id` and
`updated_at` are elided, the schema keys `UNIQUE(session_id)` and
`UNIQUE(plan_id)` are stated as the invariant `ActiveUniq` below. -/
structure ActiveR where
  session_id : String
  plan_id : Nat
  deriving DecidableEq, Repr

/-- The whole store (`ensureSchema` in `lib/db.ts`). -/
structure DB where
  plans : List PlanR
  steps : List StepR
  goals : List GoalR
  active : List ActiveR
  nextPlanId : Nat
  nextStepId : Nat
  nextGoalId : Nat
  deriving DecidableEq, Repr

/-- The empty store right after `ensureSchema` on a fresh database. -/
def DB.empty : DB := ⟨[], [], [], [], 1, 1, 1⟩

/-- `AppError` (`lib/errors.ts`) restricted to the kinds the task engine
raises: `invalidInput` and `notFound`, each carrying the detail message. -/
inductive Err
  | invalidInput (detail : String)
  | notFound (detail : String)
  deriving DecidableEq, Repr

/-- `StepStatusChange` from `lib/models.ts`. -/
structure StepStatusChange where
  step_id : Nat
  fromStatus : Status
  toStatus : Status
  reason : String
  deriving DecidableEq, Repr

/-- `PlanStatusChange` from `lib/models.ts`. -/
structure PlanStatusChange where
  plan_id : Nat
  fromStatus : Status
  toStatus : Status
  reason : String
  deriving DecidableEq, Repr

/-- `ActivePlanCleared` from `lib/models.ts`. -/
structure ActivePlanCleared where
  plan_id : Nat
  reason : String
  deriving DecidableEq, Repr

/-- `StatusChanges` from `lib/models.ts`. -/
structure StatusChanges where
  steps : List StepStatusChange
  plans : List PlanStatusChange
  active_plans_cleared : List ActivePlanCleared
  deriving DecidableEq, Repr

/-- `createEmptyStatusChanges` from `lib/models.ts`. -/
def createEmptyStatusChanges : StatusChanges := ⟨[], [], []⟩

/-- `mergeStatusChanges` from `lib/models.ts` (appends `other` onto
`target`). -/
def mergeStatusChanges (target other : StatusChanges) : StatusChanges :=
  ⟨target.steps ++ other.steps, target.plans ++ other.plans,
    target.active_plans_cleared ++ other.active_plans_cleared⟩

/-! ## JS string primitives

The JS string methods the source relies on (`trim`, `trimEnd`, `toLowerCase`,
`includes`, `startsWith`, `split(/\\r?\\n/)`) are modelled by structurally
recursive functions on the character list of the string, so that concrete
runs evaluate inside the kernel.  (`Char.isWhitespace` covers the ASCII
whitespace planpilot's own data can contain.) -/

/-- Characters of a JS-trimmed string. -/
def trimChars (l : List Char) : List Char :=
  ((l.dropWhile Char.isWhitespace).reverse.dropWhile Char.isWhitespace).reverse

/-- JS `value.trim()`. -/
def strTrim (s : String) : String :=
  ⟨trimChars s.toList⟩

/-- JS `value.trimEnd()` (also Lean-side `String.trimRight`). -/
def strTrimRight (s : String) : String :=
  ⟨(s.toList.reverse.dropWhile Char.isWhitespace).reverse⟩

/-- JS `value.toLowerCase()` (ASCII case fold). -/
def strToLower (s : String) : String :=
  ⟨s.toList.map Char.toLower⟩

/-- Is `needle` a prefix of `hay`?  (JS `startsWith`.) -/
def listIsPrefixOf : List Char → List Char → Bool
  | [], _ => true
  | _ :: _, [] => false
  | a :: as, b :: bs => a == b && listIsPrefixOf as bs

/-- Does `hay` contain `needle` as a contiguous substring?  (The empty needle
is always contained, like JS `String.prototype.includes`.) -/
def listContainsSub (needle : List Char) : List Char → Bool
  | [] => listIsPrefixOf needle []
  | c :: rest => listIsPrefixOf needle (c :: rest) || listContainsSub needle rest

/-- JS `source.includes(term)` on strings. -/
def strIncludes (source term : String) : Bool :=
  listContainsSub term.toList source.toList

/-- Split on a separator character (JS `split`; splitting the empty string
yields `[""]`, like JS). -/
def splitOnChar (sep : Char) : List Char → List (List Char)
  | [] => [[]]
  | c :: rest =>
    if c == sep then [] :: splitOnChar sep rest
    else
      match splitOnChar sep rest with
      | [] => [[c]]
      | l :: ls => (c :: l) :: ls

/-- Normalise `"\r\n"` to `"\n"` so that `splitOnChar '\n'` models the JS
split on `/\r?\n/`. -/
def stripCR : List Char → List Char
  | [] => []
  | '\r' :: '\n' :: rest => '\n' :: stripCR rest
  | c :: rest => c :: stripCR rest

/-- `ensureNonEmpty` from `lib/util.ts`: rejects a value whose trimmed length
is zero. -/
def ensureNonEmpty (label value : String) : Except Err Unit :=
  if (strTrim value).length == 0 then
    .error (.invalidInput (label ++ " cannot be empty"))
  else
    .ok ()

/-- `joinIds` from `lib/util.ts`. -/
def joinIds (ids : List Nat) : String :=
  String.intercalate ", " (ids.map toString)

/-- `uniqueIds` from `lib/util.ts`: first-occurrence deduplication (the JS
loop with a `seen` set keeps the first occurrence of each id, in order; this
recursion computes the same list). -/
def uniqueIds : List Nat → List Nat
  | [] => []
  | i :: rest => i :: (uniqueIds rest).filter (fun j => j ≠ i)

/-- First-occurrence deduplication used for `Array.from(new Set(...))` and the
`seen`-set loops collecting step/plan ids in `lib/app.ts`. -/
def dedupNats : List Nat → List Nat
  | [] => []
  | i :: rest => i :: (dedupNats rest).filter (fun j => j ≠ i)

/-! ## Ordered reads

SQLite `ORDER BY sort_order ASC, id ASC` (steps) and `ORDER BY id ASC`
(goals), modelled by an insertion sort on the respective key.  The key
`(sort_order, id)` is injective on well-formed tables (ids are unique), so the
sort is deterministic. -/

/-- `ORDER BY sort_order ASC, id ASC` comparison on step rows. -/
def stepLe (a b : StepR) : Bool :=
  a.sort_order < b.sort_order || (a.sort_order == b.sort_order && a.id ≤ b.id)

/-- Insert a step into a list sorted by `stepLe`. -/
def insertStepSorted (a : StepR) : List StepR → List StepR
  | [] => [a]
  | b :: l => if stepLe a b then a :: b :: l else b :: insertStepSorted a l

/-- Sort step rows by `(sort_order, id)`. -/
def sortSteps : List StepR → List StepR
  | [] => []
  | a :: l => insertStepSorted a (sortSteps l)

/-- Insert a goal into a list sorted by id. -/
def insertGoalSorted (a : GoalR) : List GoalR → List GoalR
  | [] => [a]
  | b :: l => if a.id ≤ b.id then a :: b :: l else b :: insertGoalSorted a l

/-- Sort goal rows by id (`ORDER BY id ASC`). -/
def sortGoals : List GoalR → List GoalR
  | [] => []
  | a :: l => insertGoalSorted a (sortGoals l)

/-- `SELECT * FROM steps WHERE plan_id = ? ORDER BY sort_order ASC, id ASC`. -/
def stepsOfPlan (db : DB) (planId : Nat) : List StepR :=
  sortSteps (db.steps.filter (fun s => s.plan_id == planId))

/-- `SELECT * FROM goals WHERE step_id = ? ORDER BY id ASC`
(`goalsForStep` in `lib/app.ts`). -/
def goalsForStep (db : DB) (stepId : Nat) : List GoalR :=
  sortGoals (db.goals.filter (fun g => g.step_id == stepId))

/-- `getPlan` (`lib/app.ts`): `SELECT * FROM plans WHERE id = ?`, `NotFound`
when absent. -/
def getPlan (db : DB) (id : Nat) : Except Err PlanR :=
  match db.plans.find? (fun p => p.id == id) with
  | some p => .ok p
  | none => .error (.notFound ("plan id " ++ toString id))

/-- `getStep` (`lib/app.ts`). -/
def getStep (db : DB) (id : Nat) : Except Err StepR :=
  match db.steps.find? (fun s => s.id == id) with
  | some s => .ok s
  | none => .error (.notFound ("step id " ++ toString id))

/-- `getGoal` (`lib/app.ts`). -/
def getGoal (db : DB) (id : Nat) : Except Err GoalR :=
  match db.goals.find? (fun g => g.id == id) with
  | some g => .ok g
  | none => .error (.notFound ("goal id " ++ toString id))

/-- `nextStep` (`lib/app.ts`): `SELECT * FROM steps WHERE plan_id = ? AND
status = 'todo' ORDER BY sort_order ASC, id ASC LIMIT 1`. -/
def nextStep (db : DB) (planId : Nat) : Option StepR :=
  (sortSteps (db.steps.filter
    (fun s => s.plan_id == planId && s.status == Status.todo))).head?

/-- `nextGoalForStep` (`lib/app.ts`): first todo goal of a step by id order. -/
def nextGoalForStep (db : DB) (stepId : Nat) : Option GoalR :=
  (sortGoals (db.goals.filter
    (fun g => g.step_id == stepId && g.status == Status.todo))).head?

/-- `getActivePlan` (`lib/app.ts`): the session's active-plan row, if any. -/
def getActivePlan (db : DB) (sid : String) : Option ActiveR :=
  db.active.find? (fun r => r.session_id == sid)

/-! ## Row updates (`UPDATE ... WHERE id = ?`) -/

/-- `UPDATE steps SET status = ? WHERE id = ?`. -/
def setStepStatus (l : List StepR) (id : Nat) (st : Status) : List StepR :=
  l.map (fun s => if s.id == id then { s with status := st } else s)

/-- `UPDATE plans SET status = ? WHERE id = ?`. -/
def setPlanStatus (l : List PlanR) (id : Nat) (st : Status) : List PlanR :=
  l.map (fun p => if p.id == id then { p with status := st } else p)

/-- `UPDATE goals SET status = ? WHERE id = ?`. -/
def setGoalStatusRow (l : List GoalR) (id : Nat) (st : Status) : List GoalR :=
  l.map (fun g => if g.id == id then { g with status := st } else g)

/-! ## Renumbering

`normalizeStepsInPlace` / the renumber loop of `moveStep` assign
`sort_order := idx + 1` along a list. -/

/-- Assign sort positions `n, n+1, ...` along a list of steps. -/
def renumberFrom : Nat → List StepR → List StepR
  | _, [] => []
  | n, s :: rest => { s with sort_order := n } :: renumberFrom (n + 1) rest

/-- `[start, start+1, ..., start+len-1]` (used to state ordering facts). -/
def natSeq (start : Nat) : Nat → List Nat
  | 0 => []
  | n + 1 => start :: natSeq (start + 1) n

/-- `normalizeStepsForPlan` / `normalizeStepsInPlace` (`lib/app.ts`): rewrite
the plan's steps so their sort positions are the contiguous sequence
`1..N` in `(sort_order, id)` order.  Rows of other plans are untouched (their
position in the table list changes, which is unobservable). -/
def normalizeSteps (db : DB) (planId : Nat) : DB :=
  { db with steps := db.steps.filter (fun s => s.plan_id != planId)
      ++ renumberFrom 1 (stepsOfPlan db planId) }

/-! ## Refresh / touch helpers (`lib/app.ts` private methods) -/

/-- `clearActivePlansForPlanWithConn`: delete every active-plan row pointing at
`planId`; report whether the *current* session's row was among them. -/
def clearActivePlansForPlan (sid : String) (planId : Nat) (db : DB) :
    Bool × DB :=
  let existing := db.active.filter (fun r => r.plan_id == planId)
  let clearedCurrent := existing.any (fun r => r.session_id == sid)
  (clearedCurrent, { db with active := db.active.filter (fun r => r.plan_id != planId) })

/-- `touchPlan`: bump the plan's bookkeeping columns (elided here), failing
with `NotFound` when the plan does not exist (`result.changes === 0`). -/
def touchPlan (db : DB) (planId : Nat) : Except Err DB :=
  if db.plans.any (fun p => p.id == planId) then .ok db
  else .error (.notFound ("plan id " ++ toString planId))

/-- `touchPlans`: `touchPlan` for each id. -/
def touchPlans (db : DB) : List Nat → Except Err DB
  | [] => .ok db
  | p :: rest => do
    let db' ← touchPlan db p
    touchPlans db' rest

/-- `COUNT(*) FROM steps WHERE plan_id = ?`. -/
def countStepsOfPlan (db : DB) (planId : Nat) : Nat :=
  (db.steps.filter (fun s => s.plan_id == planId)).length

/-- `COUNT(*) FROM steps WHERE plan_id = ? AND status = 'done'`. -/
def countDoneStepsOfPlan (db : DB) (planId : Nat) : Nat :=
  (db.steps.filter (fun s => s.plan_id == planId && s.status == Status.done)).length

/-- `refreshPlanStatus` (`lib/app.ts` lines 1009-1032): derive the plan's
status from its steps (`done` iff `done.count == total.count`, skipped when
the plan has no steps), persist it when it differs, record the change, and on
a transition to `done` clear the active-plan rows for this plan, recording the
"active plan cleared" event only when the current session's row was cleared. -/
def refreshPlanStatus (sid : String) (planId : Nat) (db : DB) :
    Except Err (StatusChanges × DB) :=
  let total := countStepsOfPlan db planId
  if total == 0 then .ok (createEmptyStatusChanges, db)
  else
    let doneCount := countDoneStepsOfPlan db planId
    let status : Status := if doneCount == total then .done else .todo
    match getPlan db planId with
    | .error e => .error e
    | .ok plan =>
      if plan.status != status then
        let reason :=
          if doneCount == total then
            "all steps are done (" ++ toString doneCount ++ "/" ++ toString total ++ ")"
          else
            "steps done " ++ toString doneCount ++ "/" ++ toString total
        let db₁ : DB := { db with plans := setPlanStatus db.plans planId status }
        let changes : StatusChanges :=
          ⟨[], [⟨planId, plan.status, status, reason⟩], []⟩
        if status == .done then
          let cleared := clearActivePlansForPlan sid planId db₁
          let changes :=
            if cleared.1 then
              { changes with active_plans_cleared := [⟨planId, "plan marked done"⟩] }
            else changes
          .ok (changes, cleared.2)
        else
          .ok (changes, db₁)
      else
        .ok (createEmptyStatusChanges, db)

/-- `refreshStepStatus` (`lib/app.ts` lines 1034-1051): derive the step's
status from its goals (skipped when the step has no goals), persist and record
a change if needed, then always refresh the owning plan. -/
def refreshStepStatus (sid : String) (stepId : Nat) (db : DB) :
    Except Err (StatusChanges × DB) :=
  let goals := goalsForStep db stepId
  if goals.isEmpty then .ok (createEmptyStatusChanges, db)
  else
    let doneCount := (goals.filter (fun g => g.status == Status.done)).length
    let total := goals.length
    let status : Status := if doneCount == total then .done else .todo
    match getStep db stepId with
    | .error e => .error e
    | .ok step =>
      let changes_db :=
        if step.status != status then
          let reason :=
            if doneCount == total then
              "all goals are done (" ++ toString doneCount ++ "/" ++ toString total ++ ")"
            else
              "goals done " ++ toString doneCount ++ "/" ++ toString total
          ((⟨[⟨stepId, step.status, status, reason⟩], [], []⟩ : StatusChanges),
            { db with steps := setStepStatus db.steps stepId status })
        else
          (createEmptyStatusChanges, db)
      match refreshPlanStatus sid step.plan_id changes_db.2 with
      | .error e => .error e
      | .ok (pc, db') => .ok (mergeStatusChanges changes_db.1 pc, db')

/-- Fold of `refreshStepStatus` over a list of step ids, merging the change
records (the `stepIds.forEach(... mergeStatusChanges ...)` loops). -/
def refreshSteps (sid : String) : List Nat → DB → Except Err (StatusChanges × DB)
  | [], db => .ok (createEmptyStatusChanges, db)
  | s :: rest, db => do
    let (c, db₁) ← refreshStepStatus sid s db
    let (cs, db₂) ← refreshSteps sid rest db₁
    return (mergeStatusChanges c cs, db₂)

/-- Fold of `refreshPlanStatus` over a list of plan ids, merging the change
records. -/
def refreshPlans (sid : String) : List Nat → DB → Except Err (StatusChanges × DB)
  | [], db => .ok (createEmptyStatusChanges, db)
  | p :: rest, db => do
    let (c, db₁) ← refreshPlanStatus sid p db
    let (cs, db₂) ← refreshPlans sid rest db₁
    return (mergeStatusChanges c cs, db₂)

/-- `normalizeStepsForPlan` applied to each plan id in turn. -/
def normalizePlans (db : DB) : List Nat → DB
  | [] => db
  | p :: rest => normalizePlans (normalizeSteps db p) rest

/-- `ensureNonEmpty` over every element of a list (the `forEach` validation
loops). -/
def ensureAllNonEmpty (label : String) : List String → Except Err Unit
  | [] => .ok ()
  | v :: rest => do
    ensureNonEmpty label v
    ensureAllNonEmpty label rest

/-! ## Formatting (`lib/format.ts`), as far as the engine's error messages
need it.  The `Created:`/`Updated:` timestamp lines are elided together with
the timestamps themselves. -/

/-- Status serialisation used in SQL and formatting. -/
def Status.text : Status → String
  | .todo => "todo"
  | .done => "done"

/-- Executor serialisation used in SQL and formatting. -/
def Executor.text : Executor → String
  | .ai => "ai"
  | .human => "human"

/-- `hasText` (`lib/format.ts`). -/
def hasText : Option String → Bool
  | none => false
  | some v => (strTrim v).length > 0

/-- Goal bullet lines of `formatStepDetail`. -/
def goalLines : List GoalR → String
  | [] => ""
  | g :: rest =>
    "- [" ++ g.status.text ++ "] " ++ g.content ++ " (goal id " ++ toString g.id ++ ")\n"
      ++ (if hasText g.comment then "  Comment: " ++ (g.comment.getD "") ++ "\n" else "")
      ++ goalLines rest

/-- `formatStepDetail` (`lib/format.ts`), timestamp lines elided. -/
def formatStepDetail (step : StepR) (goals : List GoalR) : String :=
  let base := "Step ID: " ++ toString step.id ++ "\n"
    ++ "Plan ID: " ++ toString step.plan_id ++ "\n"
    ++ "Status: " ++ step.status.text ++ "\n"
    ++ "Executor: " ++ step.executor.text ++ "\n"
    ++ "Content: " ++ step.content ++ "\n"
    ++ (if hasText step.comment then "Comment: " ++ (step.comment.getD "") ++ "\n" else "")
    ++ "\n"
  if goals.isEmpty then strTrimRight (base ++ "Goals: (none)")
  else strTrimRight (base ++ "Goals:\n" ++ goalLines goals)

/-! ## Task engine operations (`PlanpilotApp`, `lib/app.ts`)

Each operation takes the calling session id `sid` (the `PlanpilotApp`
constructor argument) and the store, and returns the operation result paired
with the updated store, or an error (in which case the transaction rolls back
and the store is unchanged — see `applyOp`). -/

/-- New step rows inserted by the `contents.forEach` loop of `addStepsBatch`:
fresh autoincrement ids from `nid`, contiguous sort positions from `pos`,
comment `NULL`. -/
def insertNewSteps (planId : Nat) (status : Status) (executor : Executor) :
    List String → Nat → Nat → List StepR
  | [], _, _ => []
  | c :: rest, pos, nid =>
    ⟨nid, planId, c, status, executor, pos, none⟩
      :: insertNewSteps planId status executor rest (pos + 1) (nid + 1)

/-- New goal rows inserted by a `contents.forEach` goal loop: fresh ids from
`nid`, comment `NULL`. -/
def insertNewGoals (stepId : Nat) (status : Status) :
    List String → Nat → List GoalR
  | [], _ => []
  | c :: rest, nid =>
    ⟨nid, stepId, c, status, none⟩ :: insertNewGoals stepId status rest (nid + 1)

/-- `addPlan` (`lib/app.ts`): insert a plan with status `todo`. -/
def addPlan (title content : String) (db : DB) : Except Err (PlanR × DB) := do
  ensureNonEmpty "plan title" title
  ensureNonEmpty "plan content" content
  let plan : PlanR := ⟨db.nextPlanId, title, content, Status.todo, none⟩
  return (plan, { db with plans := db.plans ++ [plan], nextPlanId := db.nextPlanId + 1 })

/-- `StepInput` (`lib/models.ts`). -/
structure StepInput where
  content : String
  executor : Executor
  goals : List String
  deriving DecidableEq, Repr

/-- The validation `forEach` of `addPlanTree`. -/
def validateStepInputs : List StepInput → Except Err Unit
  | [] => .ok ()
  | si :: rest => do
    ensureNonEmpty "step content" si.content
    ensureAllNonEmpty "goal content" si.goals
    validateStepInputs rest

/-- The `steps.forEach` insertion loop of `addPlanTree`: step `idx` gets sort
position `idx + 1`, each goal a fresh id; all rows start `todo`. -/
def insertTree (planId : Nat) : List StepInput → Nat → DB → DB
  | [], _, db => db
  | si :: rest, idx, db =>
    let step : StepR := ⟨db.nextStepId, planId, si.content, Status.todo, si.executor, idx, none⟩
    let db := { db with steps := db.steps ++ [step], nextStepId := db.nextStepId + 1 }
    let createdGoals := insertNewGoals step.id Status.todo si.goals db.nextGoalId
    let db := { db with goals := db.goals ++ createdGoals,
                        nextGoalId := db.nextGoalId + si.goals.length }
    insertTree planId rest (idx + 1) db

/-- `addPlanTree` (`lib/app.ts`): create a plan and its full step/goal tree
atomically; returns the plan and the created step/goal counts. -/
def addPlanTree (title content : String) (steps : List StepInput) (db : DB) :
    Except Err ((PlanR × Nat × Nat) × DB) := do
  ensureNonEmpty "plan title" title
  ensureNonEmpty "plan content" content
  validateStepInputs steps
  let plan : PlanR := ⟨db.nextPlanId, title, content, Status.todo, none⟩
  let db := { db with plans := db.plans ++ [plan], nextPlanId := db.nextPlanId + 1 }
  let db := insertTree plan.id steps 1 db
  return ((plan, steps.length, (steps.map (fun si => si.goals.length)).sum), db)

/-- `addStepsBatch` (`lib/app.ts` lines 285-343): normalize the plan's sort
order, shift every step at or after the insertion point by the batch size,
insert the new steps at contiguous positions starting at the insertion point
(append by default; an `at <= 0` clamps to 1, an `at` beyond the end clamps
to `total + 1`), then refresh the plan status. -/
def addStepsBatch (sid : String) (planId : Nat) (contents : List String)
    (status : Status) (executor : Executor) (at? : Option Int) (db : DB) :
    Except Err ((List StepR × StatusChanges) × DB) := do
  if !(db.plans.any (fun p => p.id == planId)) then
    throw (.notFound ("plan id " ++ toString planId))
  if contents.isEmpty then
    return (([], createEmptyStatusChanges), db)
  ensureAllNonEmpty "step content" contents
  let existing := stepsOfPlan db planId
  let db := normalizeSteps db planId
  let total := existing.length
  let insertPos : Nat :=
    match at? with
    | some a => if a > 0 then min a.toNat (total + 1) else 1
    | none => total + 1
  let shiftBy := contents.length
  let db :=
    if shiftBy > 0 then
      { db with steps := db.steps.map (fun s =>
          if s.plan_id == planId && insertPos ≤ s.sort_order then
            { s with sort_order := s.sort_order + shiftBy }
          else s) }
    else db
  let created := insertNewSteps planId status executor contents insertPos db.nextStepId
  let db := { db with steps := db.steps ++ created,
                      nextStepId := db.nextStepId + contents.length }
  let (changes, db) ← refreshPlanStatus sid planId db
  let db ← touchPlan db planId
  return ((created, changes), db)

/-- `addStepTree` (`lib/app.ts` lines 345-385): normalize, append one step at
position `N + 1` with its goals (all rows `todo`), refresh the plan. -/
def addStepTree (sid : String) (planId : Nat) (content : String)
    (executor : Executor) (goals : List String) (db : DB) :
    Except Err (((StepR × List GoalR) × StatusChanges) × DB) := do
  ensureNonEmpty "step content" content
  ensureAllNonEmpty "goal content" goals
  if !(db.plans.any (fun p => p.id == planId)) then
    throw (.notFound ("plan id " ++ toString planId))
  let existing := stepsOfPlan db planId
  let db := normalizeSteps db planId
  let sortOrder := existing.length + 1
  let step : StepR := ⟨db.nextStepId, planId, content, Status.todo, executor, sortOrder, none⟩
  let db := { db with steps := db.steps ++ [step], nextStepId := db.nextStepId + 1 }
  let createdGoals := insertNewGoals step.id Status.todo goals db.nextGoalId
  let db := { db with goals := db.goals ++ createdGoals,
                      nextGoalId := db.nextGoalId + goals.length }
  let (changes, db) ← refreshPlanStatus sid planId db
  let db ← touchPlan db planId
  return (((step, createdGoals), changes), db)

/-- `StepChanges` (`lib/models.ts`); `comment = some c` models passing the
`comment` key (with value `c : Option String`, `none` being SQL NULL), while
`comment = none` models leaving the key `undefined`. -/
structure StepChanges where
  content : Option String := none
  status : Option Status := none
  executor : Option Executor := none
  comment : Option (Option String) := none
  deriving DecidableEq, Repr

/-- `updateStep` (`lib/app.ts` lines 447-483): partial update; a `status:
'done'` request is rejected when the step still has a pending goal (error
naming that first pending goal); a status change triggers a plan refresh. -/
def updateStep (sid : String) (id : Nat) (ch : StepChanges) (db : DB) :
    Except Err ((StepR × StatusChanges) × DB) := do
  match ch.content with
  | some c => ensureNonEmpty "step content" c
  | none => pure ()
  if ch.status == some Status.done then
    match nextGoalForStep db id with
    | some pending =>
      throw (.invalidInput ("cannot mark step done; next pending goal: "
        ++ pending.content ++ " (id " ++ toString pending.id ++ ")"))
    | none => pure ()
  let existing ← getStep db id
  let updContent := ch.content.getD existing.content
  let updStatus := ch.status.getD existing.status
  let updExecutor := ch.executor.getD existing.executor
  let updComment := ch.comment.getD existing.comment
  let db := { db with steps := db.steps.map (fun s =>
      if s.id == id then
        { s with content := updContent, status := updStatus,
                 executor := updExecutor, comment := updComment }
      else s) }
  let step ← getStep db id
  let (statusChanges, db) ←
    if ch.status.isSome then refreshPlanStatus sid step.plan_id db
    else pure (createEmptyStatusChanges, db)
  let db ← touchPlan db step.plan_id
  return ((step, mergeStatusChanges createEmptyStatusChanges statusChanges), db)

/-- `GoalChanges` (`lib/models.ts`), same conventions as `StepChanges`. -/
structure GoalChanges where
  content : Option String := none
  status : Option Status := none
  comment : Option (Option String) := none
  deriving DecidableEq, Repr

/-- `updateGoal` (`lib/app.ts` lines 640-667): partial update; a status change
triggers a step refresh (which cascades to the plan). -/
def updateGoal (sid : String) (id : Nat) (ch : GoalChanges) (db : DB) :
    Except Err ((GoalR × StatusChanges) × DB) := do
  match ch.content with
  | some c => ensureNonEmpty "goal content" c
  | none => pure ()
  let existing ← getGoal db id
  let updContent := ch.content.getD existing.content
  let updStatus := ch.status.getD existing.status
  let updComment := ch.comment.getD existing.comment
  let db := { db with goals := db.goals.map (fun g =>
      if g.id == id then
        { g with content := updContent, status := updStatus, comment := updComment }
      else g) }
  let goal ← getGoal db id
  let (statusChanges, db) ←
    if ch.status.isSome then refreshStepStatus sid goal.step_id db
    else pure (createEmptyStatusChanges, db)
  let step ← getStep db goal.step_id
  let db ← touchPlan db step.plan_id
  return ((goal, mergeStatusChanges createEmptyStatusChanges statusChanges), db)

/-- `setGoalStatus` (`lib/app.ts` lines 669-682). -/
def setGoalStatus (sid : String) (id : Nat) (status : Status) (db : DB) :
    Except Err ((GoalR × StatusChanges) × DB) := do
  let _ ← getGoal db id
  let db := { db with goals := setGoalStatusRow db.goals id status }
  let goal ← getGoal db id
  let (changes, db) ← refreshStepStatus sid goal.step_id db
  let step ← getStep db goal.step_id
  let db ← touchPlan db step.plan_id
  return ((goal, changes), db)

/-- `setGoalsStatus` (`lib/app.ts` lines 684-729): bulk manual transition;
every id must exist; each affected step (first-occurrence order) is
refreshed. -/
def setGoalsStatus (sid : String) (ids : List Nat) (status : Status) (db : DB) :
    Except Err ((Nat × StatusChanges) × DB) := do
  if ids.isEmpty then
    return ((0, createEmptyStatusChanges), db)
  let unique := uniqueIds ids
  let goals := db.goals.filter (fun g => unique.contains g.id)
  let missing := unique.filter (fun i => !(goals.any (fun g => g.id == i)))
  if !missing.isEmpty then
    throw (.notFound ("goal id(s) not found: " ++ joinIds missing))
  let stepIds := dedupNats (goals.map (fun g => g.step_id))
  let db := { db with goals := db.goals.map (fun g =>
      if unique.contains g.id then { g with status := status } else g) }
  let (changes, db) ← refreshSteps sid stepIds db
  let planIds :=
    dedupNats ((db.steps.filter (fun s => stepIds.contains s.id)).map (fun s => s.plan_id))
  let db ← touchPlans db planIds
  return ((unique.length, changes), db)

/-- `setAllGoalsDoneForStep` (`lib/app.ts` lines 1060-1066). -/
def setAllGoalsDoneForStep (sid : String) (stepId : Nat) (db : DB) :
    Except Err (StatusChanges × DB) := do
  let _ ← getStep db stepId
  let goals := goalsForStep db stepId
  if goals.isEmpty then
    return (createEmptyStatusChanges, db)
  let ((_, changes), db) ← setGoalsStatus sid (goals.map (fun g => g.id)) Status.done db
  return (changes, db)

/-- `setStepDoneWithGoals` (`lib/app.ts` lines 485-510): optionally complete
all goals first, then apply the normal completion rule and mark the step
done. -/
def setStepDoneWithGoals (sid : String) (id : Nat) (allGoals : Bool) (db : DB) :
    Except Err ((StepR × StatusChanges) × DB) := do
  let (changes, db) ←
    if allGoals then setAllGoalsDoneForStep sid id db
    else
      match nextGoalForStep db id with
      | some pending =>
        throw (.invalidInput ("cannot mark step done; next pending goal: "
          ++ pending.content ++ " (id " ++ toString pending.id ++ ")"))
      | none => pure (createEmptyStatusChanges, db)
  let existing ← getStep db id
  let db :=
    if existing.status != Status.done then
      { db with steps := setStepStatus db.steps id Status.done }
    else db
  let step ← getStep db id
  let (pc, db) ← refreshPlanStatus sid step.plan_id db
  let db ← touchPlan db step.plan_id
  return ((step, mergeStatusChanges changes pc), db)

/-- `splice(idx, 0, a)`: insert `a` at index `idx` (appends when `idx` is past
the end, though `moveStep` only calls it with `idx < length`). -/
def insertAt {α : Type} : Nat → α → List α → List α
  | 0, a, l => a :: l
  | _ + 1, a, [] => [a]
  | n + 1, a, b :: l => b :: insertAt n a l

/-- `moveStep` (`lib/app.ts` lines 512-543): remove the step from the plan's
ordered list, clamp the 1-based target position into range, reinsert, and
renumber the whole plan contiguously from 1. -/
def moveStep (id : Nat) (toPos : Int) (db : DB) : Except Err (List StepR × DB) := do
  let target ← getStep db id
  let planId := target.plan_id
  let steps := stepsOfPlan db planId
  match steps.find? (fun s => s.id == id) with
  | none => throw (.notFound ("step id " ++ toString id))
  | some moving =>
    let d0 : Nat := (max (toPos - 1) 0).toNat
    let desiredIndex := if d0 ≥ steps.length then steps.length - 1 else d0
    let rest := steps.eraseP (fun s => s.id == id)
    let arranged :=
      if desiredIndex ≥ rest.length then rest ++ [moving]
      else insertAt desiredIndex moving rest
    let newSteps := renumberFrom 1 arranged
    let db := { db with steps := db.steps.filter (fun s => s.plan_id != planId) ++ newSteps }
    return (newSteps, db)

/-- `deleteSteps` (`lib/app.ts` lines 545-579): all ids must exist (else a
`NotFound` naming every missing id); cascade-delete the goals, delete the
steps, renumber and refresh every affected plan. -/
def deleteSteps (sid : String) (ids : List Nat) (db : DB) :
    Except Err ((Nat × StatusChanges) × DB) := do
  if ids.isEmpty then
    return ((0, createEmptyStatusChanges), db)
  let unique := uniqueIds ids
  let stepRows := db.steps.filter (fun s => unique.contains s.id)
  let missing := unique.filter (fun i => !(stepRows.any (fun s => s.id == i)))
  if !missing.isEmpty then
    throw (.notFound ("step id(s) not found: " ++ joinIds missing))
  let planIds := dedupNats (stepRows.map (fun s => s.plan_id))
  let deleted := stepRows.length
  let db := { db with goals := db.goals.filter (fun g => !(unique.contains g.step_id)),
                      steps := db.steps.filter (fun s => !(unique.contains s.id)) }
  let db := normalizePlans db planIds
  let (changes, db) ← refreshPlans sid planIds db
  let db ← touchPlans db planIds
  return ((deleted, changes), db)

/-- `addGoalsBatch` (`lib/app.ts` lines 581-604): insert goals with the given
status under the step, then refresh the step (and its plan). -/
def addGoalsBatch (sid : String) (stepId : Nat) (contents : List String)
    (status : Status) (db : DB) :
    Except Err ((List GoalR × StatusChanges) × DB) := do
  if contents.isEmpty then
    return (([], createEmptyStatusChanges), db)
  ensureAllNonEmpty "goal content" contents
  let step ← getStep db stepId
  let created := insertNewGoals stepId status contents db.nextGoalId
  let db := { db with goals := db.goals ++ created,
                      nextGoalId := db.nextGoalId + contents.length }
  let (changes, db) ← refreshStepStatus sid stepId db
  let db ← touchPlan db step.plan_id
  return ((created, changes), db)

/-- `deleteGoals` (`lib/app.ts` lines 731-771): all ids must exist; delete the
goals and refresh every affected step (first-occurrence order). -/
def deleteGoals (sid : String) (ids : List Nat) (db : DB) :
    Except Err ((Nat × StatusChanges) × DB) := do
  if ids.isEmpty then
    return ((0, createEmptyStatusChanges), db)
  let unique := uniqueIds ids
  let goals := db.goals.filter (fun g => unique.contains g.id)
  let missing := unique.filter (fun i => !(goals.any (fun g => g.id == i)))
  if !missing.isEmpty then
    throw (.notFound ("goal id(s) not found: " ++ joinIds missing))
  let stepIds := dedupNats (goals.map (fun g => g.step_id))
  let deleted := goals.length
  let db := { db with goals := db.goals.filter (fun g => !(unique.contains g.id)) }
  let (changes, db) ← refreshSteps sid stepIds db
  let planIds :=
    dedupNats ((db.steps.filter (fun s => stepIds.contains s.id)).map (fun s => s.plan_id))
  let db ← touchPlans db planIds
  return ((deleted, changes), db)

/-- `PlanChanges` (`lib/models.ts`), same conventions as `StepChanges`. -/
structure PlanChanges where
  title : Option String := none
  content : Option String := none
  status : Option Status := none
  comment : Option (Option String) := none
  deriving DecidableEq, Repr

/-- `updatePlanWithConn` (`lib/app.ts` lines 968-1007): partial update; a
`status: 'done'` request is rejected when the plan has at least one step and
a pending (`todo`) step exists — the error embeds the detail of that first
pending step. -/
def updatePlanWithConn (_sid : String) (id : Nat) (ch : PlanChanges) (db : DB) :
    Except Err (PlanR × DB) := do
  match ch.title with
  | some t => ensureNonEmpty "plan title" t
  | none => pure ()
  match ch.content with
  | some c => ensureNonEmpty "plan content" c
  | none => pure ()
  if ch.status == some Status.done then
    if countStepsOfPlan db id > 0 then
      match nextStep db id with
      | some next =>
        throw (.invalidInput ("cannot mark plan done; next pending step:\n"
          ++ formatStepDetail next (goalsForStep db next.id)))
      | none => pure ()
  let existing ← getPlan db id
  let updTitle := ch.title.getD existing.title
  let updContent := ch.content.getD existing.content
  let updStatus := ch.status.getD existing.status
  let updComment := ch.comment.getD existing.comment
  let db := { db with plans := db.plans.map (fun p =>
      if p.id == id then
        { p with title := updTitle, content := updContent,
                 status := updStatus, comment := updComment }
      else p) }
  let plan ← getPlan db id
  return (plan, db)

/-- `updatePlanWithActiveClear` (`lib/app.ts` lines 250-261): update the plan
and, when the resulting status is `done`, clear the active-plan rows pointing
at it; `cleared` reports whether the *current* session's row was cleared. -/
def updatePlanWithActiveClear (sid : String) (id : Nat) (ch : PlanChanges) (db : DB) :
    Except Err ((PlanR × Bool) × DB) := do
  let (plan, db) ← updatePlanWithConn sid id ch db
  if plan.status == Status.done then
    let cleared := clearActivePlansForPlan sid plan.id db
    return ((plan, cleared.1), cleared.2)
  else
    return ((plan, false), db)

/-- `deletePlan` (`lib/app.ts` lines 263-283): drop the active-plan rows, the
goals of the plan's steps, the steps, then the plan itself (`NotFound` when
the plan row is absent — the transaction then rolls back). -/
def deletePlan (id : Nat) (db : DB) : Except Err (Unit × DB) := do
  let db := { db with active := db.active.filter (fun r => r.plan_id != id) }
  let stepIds := (db.steps.filter (fun s => s.plan_id == id)).map (fun s => s.id)
  let db :=
    if !stepIds.isEmpty then
      { db with goals := db.goals.filter (fun g => !(stepIds.contains g.step_id)),
                steps := db.steps.filter (fun s => s.plan_id != id) }
    else db
  if db.plans.any (fun p => p.id == id) then
    return ((), { db with plans := db.plans.filter (fun p => p.id != id) })
  else
    throw (.notFound ("plan id " ++ toString id))

/-- `setActivePlan` (`lib/app.ts` lines 214-244): fail with `InvalidInput`
when another session holds the plan and `takeover` is false; otherwise delete
this session's row and the plan's row, insert the new pointer, and return it. -/
def setActivePlan (sid : String) (planId : Nat) (takeover : Bool) (db : DB) :
    Except Err (ActiveR × DB) := do
  let _ ← getPlan db planId
  match db.active.find? (fun r => r.plan_id == planId) with
  | some existing =>
    if existing.session_id != sid && !takeover then
      throw (.invalidInput ("plan id " ++ toString planId ++ " is already active in session "
        ++ existing.session_id ++ " (use --force to take over)"))
    else pure ()
  | none => pure ()
  let db := { db with active :=
      ((db.active.filter (fun r => r.session_id != sid)).filter
        (fun r => r.plan_id != planId)) ++ [⟨sid, planId⟩] }
  let db ← touchPlan db planId
  match db.active.find? (fun r => r.session_id == sid) with
  | some created => return (created, db)
  | none => throw (.notFound "active plan not found after insert")

/-- `clearActivePlan` (`lib/app.ts` lines 246-248). -/
def clearActivePlan (sid : String) (db : DB) : DB :=
  { db with active := db.active.filter (fun r => r.session_id != sid) }

/-! ## Operation sequences

One constructor per mutating `PlanpilotApp` operation (the pure reads have no
effect on the store).  `applyOp` executes the operation's transaction: on an
error the transaction rolls back, so the store is returned unchanged. -/

/-- A mutating task-engine operation, with the calling session where the
operation reads `this.sessionId`. -/
inductive EngineOp
  | addPlan (title content : String)
  | addPlanTree (title content : String) (steps : List StepInput)
  | addStepsBatch (sid : String) (planId : Nat) (contents : List String)
      (status : Status) (executor : Executor) (at? : Option Int)
  | addStepTree (sid : String) (planId : Nat) (content : String)
      (executor : Executor) (goals : List String)
  | updateStep (sid : String) (id : Nat) (ch : StepChanges)
  | setStepDoneWithGoals (sid : String) (id : Nat) (allGoals : Bool)
  | moveStep (id : Nat) (toPos : Int)
  | deleteSteps (sid : String) (ids : List Nat)
  | addGoalsBatch (sid : String) (stepId : Nat) (contents : List String) (status : Status)
  | updateGoal (sid : String) (id : Nat) (ch : GoalChanges)
  | setGoalStatus (sid : String) (id : Nat) (status : Status)
  | setGoalsStatus (sid : String) (ids : List Nat) (status : Status)
  | deleteGoals (sid : String) (ids : List Nat)
  | updatePlan (sid : String) (id : Nat) (ch : PlanChanges)
  | deletePlan (id : Nat)
  | setActivePlan (sid : String) (planId : Nat) (takeover : Bool)
  | clearActivePlan (sid : String)
  deriving DecidableEq, Repr

/-- Commit a transaction result: keep the new store on success, roll back to
the pre-state on error. -/
def commit {α : Type} (db : DB) : Except Err (α × DB) → DB
  | .ok (_, db') => db'
  | .error _ => db

/-- Execute one operation against the store. -/
def applyOp (db : DB) : EngineOp → DB
  | .addPlan t c => commit db (addPlan t c db)
  | .addPlanTree t c steps => commit db (addPlanTree t c steps db)
  | .addStepsBatch sid p cs st ex at? => commit db (addStepsBatch sid p cs st ex at? db)
  | .addStepTree sid p c ex gs => commit db (addStepTree sid p c ex gs db)
  | .updateStep sid i ch => commit db (updateStep sid i ch db)
  | .setStepDoneWithGoals sid i ag => commit db (setStepDoneWithGoals sid i ag db)
  | .moveStep i t => commit db (moveStep i t db)
  | .deleteSteps sid ids => commit db (deleteSteps sid ids db)
  | .addGoalsBatch sid s cs st => commit db (addGoalsBatch sid s cs st db)
  | .updateGoal sid i ch => commit db (updateGoal sid i ch db)
  | .setGoalStatus sid i st => commit db (setGoalStatus sid i st db)
  | .setGoalsStatus sid ids st => commit db (setGoalsStatus sid ids st db)
  | .deleteGoals sid ids => commit db (deleteGoals sid ids db)
  | .updatePlan sid i ch => commit db (updatePlanWithActiveClear sid i ch db)
  | .deletePlan i => commit db (deletePlan i db)
  | .setActivePlan sid p tk => commit db (setActivePlan sid p tk db)
  | .clearActivePlan sid => clearActivePlan sid db

/-- Execute a sequence of operations. -/
def applyOps (db : DB) : List EngineOp → DB
  | [] => db
  | op :: rest => applyOps (applyOp db op) rest

/-- The operations C2 quantifies over: step additions (`addStepsBatch`,
`addStepTree`, `addPlanTree`), `moveStep` and `deleteSteps`. -/
def isStepStructureOp : EngineOp → Prop
  | .addPlanTree _ _ _ => True
  | .addStepsBatch _ _ _ _ _ _ => True
  | .addStepTree _ _ _ _ _ => True
  | .moveStep _ _ => True
  | .deleteSteps _ _ => True
  | _ => False

/-- Operations that do not explicitly force a `todo` status onto a step or a
plan through the partial-update entry points (the amendment C1 needs: such an
override is the one way the rollup invariant can be broken). -/
def noTodoOverride : EngineOp → Prop
  | .updateStep _ _ ch => ch.status ≠ some Status.todo
  | .updatePlan _ _ ch => ch.status ≠ some Status.todo
  | _ => True

/-! ## CLI and Studio-bridge plan activation (C10)

`handlePlanActivate` (`command.ts`) and `actionPlanActivate` (the Studio
bridge) both look the plan up, reject a `done` plan with `InvalidInput`
*before* calling the engine, and otherwise delegate to
`PlanpilotApp.setActivePlan`.  Argument tokenising (`parseNumber`,
`--force` scanning, `expectInt`) is out of scope; the handlers are modelled
from the already-parsed id and force flag on. -/

/-- CLI `plan activate <id> [--force]` handler (`handlePlanActivate`). -/
def handlePlanActivate (sid : String) (id : Nat) (force : Bool) (db : DB) :
    Except Err (Nat × DB) := do
  let plan ← getPlan db id
  if plan.status == Status.done then
    throw (.invalidInput "cannot activate plan; plan is done")
  let (_, db) ← setActivePlan sid id force db
  return (plan.id, db)

/-- Studio bridge `plan.activate` action (`actionPlanActivate`); the parsed
`force` defaults to `false` when absent. -/
def actionPlanActivate (sid : String) (id : Nat) (force : Option Bool) (db : DB) :
    Except Err (ActiveR × DB) := do
  let plan ← getPlan db id
  if plan.status == Status.done then
    throw (.invalidInput "cannot activate plan; plan is done")
  setActivePlan sid id (force.getD false) db

/-! ## Rule engine (`lib/config.ts`) -/

/-- `KeywordRule` (`lib/config.ts`). -/
structure KeywordRule where
  any : List String
  all : List String
  none : List String
  matchCase : Bool
  deriving DecidableEq, Repr

/-- `matchesKeywords` (`lib/config.ts` lines 419-436): case-folded unless
`matchCase`; requires some `any` term (when the `any` set is nonempty), every
`all` term, and no `none` term to occur in the text. -/
def matchesKeywords (text : String) (rule : KeywordRule) : Bool :=
  let source := if rule.matchCase then text else strToLower text
  let normalize : String → String := fun v => if rule.matchCase then v else strToLower v
  let anyT := rule.any.map normalize
  let allT := rule.all.map normalize
  let noneT := rule.none.map normalize
  if anyT.length > 0 && !(anyT.any (fun term => strIncludes source term)) then false
  else if !(allT.all (fun term => strIncludes source term)) then false
  else if noneT.any (fun term => strIncludes source term) then false
  else true

/-! ## Auto-continue orchestrator (`index.ts`)

The per-session mutable maps of the plugin closure are modelled as one
`SessionState` record (the session's slice of each map); timers are modelled
by the data they carry (`waitTimerAt`: the wake deadline of the armed wait
timer, `retryTimerDelay`: the backoff delay of the armed send-retry timer).
`Date.now()` is the explicit `now` argument.  Host interactions
(`resolveAutoContext`, `session.promptAsync`) are oracles passed in as
`ResolvedContext` and `promptError`. -/

/-- `IDLE_DEBOUNCE_MS` (`index.ts`). -/
def IDLE_DEBOUNCE_MS : Nat := 1000

/-- `RECENT_SEND_DEDUPE_MS` (`index.ts`). -/
def RECENT_SEND_DEDUPE_MS : Nat := 1500

/-- `TRIGGER_TTL_MS` (`index.ts`): 10 minutes. -/
def TRIGGER_TTL_MS : Nat := 10 * 60 * 1000

/-- `AutoTrigger` (`index.ts`). -/
structure Trigger where
  source : String
  force : Bool
  detail : Option String
  atMs : Nat
  deriving DecidableEq, Repr

/-- `sendRetryState` entry (`index.ts`). -/
structure RetryState where
  signature : String
  attempt : Nat
  deriving DecidableEq, Repr

/-- `SendRetryConfig` (`lib/config.ts`). -/
structure SendRetryConfig where
  enabled : Bool
  maxAttempts : Nat
  delaysMs : List Nat
  deriving DecidableEq, Repr

/-- `isManualStopError` (`index.ts` lines 121-124), applied to the
stringified error. -/
def isManualStopError (errorText : String) : Bool :=
  let text := strToLower errorText
  strIncludes text "aborted" || strIncludes text "cancel" || strIncludes text "canceled"

/-- What `scheduleSendRetry` decided: `notScheduled` leaves retry state and
timer untouched, `exhausted` is `clearSendRetry` (state dropped, timer
cleared, no new timer), `scheduled` records the attempt and arms a timer for
`delayMs`. -/
inductive RetryDecision
  | notScheduled
  | exhausted
  | scheduled (attempt : Nat) (delayMs : Nat)
  deriving DecidableEq, Repr

/-- `scheduleSendRetry` (`index.ts` lines 133-209): skip when retries are
disabled, the manual-stop guard is armed, or the failure is
manual-cancellation-shaped; otherwise bump (or restart) the attempt counter
keyed by the signature; past `maxAttempts` drop the state, else store it and
pick `delaysMs[min(attempt-1, len-1)]`.  (With an empty `delaysMs` the JS
indexes at `-1`, giving `undefined`, which `setTimeout` treats as delay 0 —
`getD _ 0` matches that.) -/
def scheduleSendRetry (cfg : SendRetryConfig) (manualStopArmed : Bool)
    (errorText : String) (prev : Option RetryState) (signature : String) :
    RetryDecision × Option RetryState :=
  if !cfg.enabled then (.notScheduled, prev)
  else if manualStopArmed then (.notScheduled, prev)
  else if isManualStopError errorText then (.notScheduled, prev)
  else
    let attempt :=
      match prev with
      | some p => if p.signature == signature then p.attempt + 1 else 1
      | none => 1
    if attempt > cfg.maxAttempts then (.exhausted, none)
    else
      let index := min (attempt - 1) (cfg.delaysMs.length - 1)
      (.scheduled attempt (cfg.delaysMs.getD index 0), some ⟨signature, attempt⟩)

/-- Decimal parsing for wait markers.  `parseWaitFromComment` runs JS
`Number(raw)`; planpilot itself only ever writes `Math.trunc(until)` — a plain
decimal integer — via `upsertWaitInComment`, and only that canonical form is
modelled (other JS numeric spellings never arise from the engine's own
writes and are irrelevant to the verified claims). -/
def parseDecimal? (s : String) : Option Nat :=
  if s.length > 0 && s.toList.all Char.isDigit then
    some (s.toList.foldl (fun n c => n * 10 + (c.toNat - 48)) 0)
  else
    Option.none

/-- `parseWaitFromComment` (`lib/util.ts`), reduced to the wake timestamp
(the optional reason is only logged).  A missing or empty comment has no
marker; otherwise the last well-formed `@wait-until=` line wins, malformed
lines are ignored. -/
def parseWaitUntil : Option String → Option Nat
  | Option.none => Option.none
  | some comment =>
    if comment.length == 0 then Option.none
    else
      (splitOnChar '\n' (stripCR comment.toList)).foldl
        (fun acc line =>
          let trimmed := trimChars line
          if listIsPrefixOf "@wait-until=".toList trimmed then
            match parseDecimal? ⟨trimChars (trimmed.drop "@wait-until=".toList.length)⟩ with
            | some v => some v
            | Option.none => acc
          else acc)
        Option.none

/-- The result of `resolveAutoContext` (`index.ts`): `null` when the host
returned no messages, `{ missingUser: true }` when there is no user message,
and otherwise the aborted/ready flags derived from the last assistant
message (the agent/model/variant routing fields are irrelevant to the
verified claims). -/
inductive ResolvedContext
  | noMessages
  | missingUser
  | ctx (aborted : Bool) (ready : Bool)
  deriving DecidableEq, Repr

/-- The per-session slice of the orchestrator's mutable maps (`index.ts`
lines 23-34). -/
structure SessionState where
  inFlight : Bool
  skipNextAuto : Bool
  lastIdleAt : Option Nat
  pendingTrigger : Option Trigger
  recentSend : Option (String × Nat)
  sendRetry : Option RetryState
  retryTimerDelay : Option Nat
  manualStop : Option (Nat × String)
  waitTimerAt : Option Nat
  deriving DecidableEq, Repr

/-- How one `handleSessionIdle` invocation ended (each constructor is one of
the function's return points, in source order). -/
inductive DispatchOutcome
  | skippedInFlight
  | skippedManualStop
  | skippedSkipNext
  | skippedDebounce
  | stopNoActivePlan
  | stopNoPendingStep
  | stopExecutorNotAi
  | armedWaitTimer
  | stopEmptyDetail
  | skippedDuplicateSend
  | stopMissingUser
  | stopNoContext
  | skippedAborted
  | skippedNotReady
  | prompted (submitFailed : Bool)
  deriving DecidableEq, Repr

/-- Result of one dispatch invocation: the final session state, the return
point taken, and whether `session.promptAsync` was invoked. -/
structure DispatchResult where
  state : SessionState
  outcome : DispatchOutcome
  promptSent : Bool
  deriving DecidableEq, Repr

/-- Lines 562-710 of `index.ts` (after the wait-marker branch). -/
def handleSessionIdleTail (db : DB) (cfg : SendRetryConfig)
    (now : Nat) (resolved : ResolvedContext) (promptError : Option String)
    (force : Bool) (active : ActiveR) (next : StepR) (st : SessionState) :
    DispatchResult :=
  let goals := goalsForStep db next.id
  let detail := formatStepDetail next goals
  if (strTrim detail).length == 0 then
    ⟨{ st with pendingTrigger := Option.none }, .stopEmptyDetail, false⟩
  else
    let signature := toString active.plan_id ++ ":" ++ toString next.id
    let st :=
      match st.sendRetry with
      | some r =>
        if r.signature != signature then
          { st with sendRetry := Option.none, retryTimerDelay := Option.none }
        else st
      | Option.none => st
    let dup :=
      match st.recentSend with
      | some (sg, sentAt) => sg == signature && now - sentAt < RECENT_SEND_DEDUPE_MS
      | Option.none => false
    if dup then
      ⟨{ st with pendingTrigger := Option.none }, .skippedDuplicateSend, false⟩
    else
      match resolved with
      | .missingUser =>
        ⟨{ st with pendingTrigger := Option.none }, .stopMissingUser, false⟩
      | .noMessages =>
        ⟨{ st with pendingTrigger := Option.none }, .stopNoContext, false⟩
      | .ctx aborted ready =>
        if aborted && !force then
          ⟨{ st with pendingTrigger := Option.none }, .skippedAborted, false⟩
        else if !ready && !force then
          ⟨{ st with pendingTrigger := Option.none }, .skippedNotReady, false⟩
        else
          match promptError with
          | some errText =>
            let sched := scheduleSendRetry cfg st.manualStop.isSome errText st.sendRetry signature
            let st :=
              match sched.1 with
              | .notScheduled => st
              | .exhausted => { st with sendRetry := Option.none, retryTimerDelay := Option.none }
              | .scheduled _ delayMs =>
                { st with sendRetry := sched.2, retryTimerDelay := some delayMs }
            ⟨st, .prompted true, true⟩
          | Option.none =>
            ⟨{ st with recentSend := some (signature, now),
                       sendRetry := Option.none, retryTimerDelay := Option.none,
                       pendingTrigger := Option.none }, .prompted false, true⟩

/-- Lines 528-710 of `index.ts`: the dispatch body after the early guards
(in-flight, manual stop, skip-next, debounce) have passed — active-plan
lookup, next-step lookup, executor check, wait marker, then the tail. -/
def dispatchCore (db : DB) (cfg : SendRetryConfig) (sid : String)
    (now : Nat) (resolved : ResolvedContext) (promptError : Option String)
    (force : Bool) (st : SessionState) : DispatchResult :=
  match getActivePlan db sid with
  | Option.none =>
    ⟨{ st with waitTimerAt := Option.none, pendingTrigger := Option.none }, .stopNoActivePlan, false⟩
  | some active =>
    match nextStep db active.plan_id with
    | Option.none =>
      ⟨{ st with waitTimerAt := Option.none, pendingTrigger := Option.none }, .stopNoPendingStep, false⟩
    | some next =>
      if next.executor != Executor.ai then
        ⟨{ st with waitTimerAt := Option.none, pendingTrigger := Option.none }, .stopExecutorNotAi, false⟩
      else
        match parseWaitUntil next.comment with
        | some untilMs =>
          if untilMs > now then
            ⟨{ st with waitTimerAt := some untilMs }, .armedWaitTimer, false⟩
          else
            handleSessionIdleTail db cfg now resolved promptError force active next st
        | Option.none =>
          handleSessionIdleTail db cfg now resolved promptError force active next
            { st with waitTimerAt := Option.none }

/-- `handleSessionIdle` (`index.ts` lines 443-721).  `promptError = some e`
means the host rejected the submit with stringified error `e`; `none` means
it was accepted. -/
def handleSessionIdle (db : DB) (cfg : SendRetryConfig) (sid : String)
    (source : String) (now : Nat) (resolved : ResolvedContext)
    (promptError : Option String) (st : SessionState) : DispatchResult :=
  -- readTrigger: drop the pending trigger when its TTL has expired
  let trigger_st :=
    match st.pendingTrigger with
    | Option.none => ((Option.none : Option Trigger), st)
    | some t =>
      if now - t.atMs > TRIGGER_TTL_MS then (Option.none, { st with pendingTrigger := Option.none })
      else (some t, st)
  let trigger := trigger_st.1
  let st := trigger_st.2
  let force := (trigger.map (fun t => t.force)).getD false
  let idleSource := source == "session.idle" || source == "session.status"
  if st.inFlight then ⟨st, .skippedInFlight, false⟩
  else if st.manualStop.isSome then
    ⟨{ st with pendingTrigger := Option.none }, .skippedManualStop, false⟩
  else if st.skipNextAuto then
    ⟨{ st with skipNextAuto := false, pendingTrigger := Option.none }, .skippedSkipNext, false⟩
  else if idleSource && trigger.isNone
      && (match st.lastIdleAt with
          | some lastIdle => decide (now - lastIdle < IDLE_DEBOUNCE_MS)
          | Option.none => false) then
    ⟨st, .skippedDebounce, false⟩
  else
    let st := if idleSource then { st with lastIdleAt := some now } else st
    dispatchCore db cfg sid now resolved promptError force st

/-! ## Invariants -/

/-- The goals of a step, as stored (order irrelevant). -/
def goalsFor (db : DB) (stepId : Nat) : List GoalR :=
  db.goals.filter (fun g => g.step_id == stepId)

/-- The steps of a plan, as stored (order irrelevant). -/
def stepsFor (db : DB) (planId : Nat) : List StepR :=
  db.steps.filter (fun s => s.plan_id == planId)

/-- Status rollup at step level: a step with at least one goal is `done` iff
all its goals are `done`. -/
def stepOk (db : DB) (s : StepR) : Prop :=
  goalsFor db s.id ≠ [] →
    (s.status = Status.done ↔ ∀ g ∈ goalsFor db s.id, g.status = Status.done)

/-- Status rollup at plan level: a plan with at least one step is `done` iff
all its steps are `done`. -/
def planOk (db : DB) (p : PlanR) : Prop :=
  stepsFor db p.id ≠ [] →
    (p.status = Status.done ↔ ∀ s ∈ stepsFor db p.id, s.status = Status.done)

/-- The status-rollup invariant of the spec (claim C1). -/
def rollupInv (db : DB) : Prop :=
  (∀ s ∈ db.steps, stepOk db s) ∧ (∀ p ∈ db.plans, planOk db p)

/-- The step-ordering invariant of the spec (claim C2): for every plan, the
multiset of its steps' sort positions is exactly `{1..N}`. -/
def orderInv (db : DB) : Prop :=
  ∀ p ∈ db.plans,
    List.Perm ((stepsFor db p.id).map (fun s => s.sort_order))
      (natSeq 1 (stepsFor db p.id).length)

/-- Structural well-formedness maintained by the engine: primary keys are
unique and below the autoincrement counters, and every step belongs to an
existing plan (the `FOREIGN KEY` plus `ON DELETE CASCADE` of the schema). -/
def WF (db : DB) : Prop :=
  (db.plans.map (fun p => p.id)).Nodup ∧
  (db.steps.map (fun s => s.id)).Nodup ∧
  (db.goals.map (fun g => g.id)).Nodup ∧
  (∀ p ∈ db.plans, p.id < db.nextPlanId) ∧
  (∀ s ∈ db.steps, s.id < db.nextStepId) ∧
  (∀ g ∈ db.goals, g.id < db.nextGoalId) ∧
  (∀ s ∈ db.steps, ∃ p ∈ db.plans, p.id = s.plan_id)

/-- The `UNIQUE(session_id)` / `UNIQUE(plan_id)` keys of `active_plan`: at
most one row per session and at most one row per plan. -/
def ActiveUniq (db : DB) : Prop :=
  (db.active.map (fun r => r.session_id)).Nodup ∧
  (db.active.map (fun r => r.plan_id)).Nodup

instance (db : DB) (s : StepR) : Decidable (stepOk db s) :=
  inferInstanceAs (Decidable (goalsFor db s.id ≠ [] →
    (s.status = Status.done ↔ ∀ g ∈ goalsFor db s.id, g.status = Status.done)))

instance (db : DB) (p : PlanR) : Decidable (planOk db p) :=
  inferInstanceAs (Decidable (stepsFor db p.id ≠ [] →
    (p.status = Status.done ↔ ∀ s ∈ stepsFor db p.id, s.status = Status.done)))

instance (db : DB) : Decidable (rollupInv db) :=
  inferInstanceAs (Decidable ((∀ s ∈ db.steps, stepOk db s) ∧ ∀ p ∈ db.plans, planOk db p))

instance (db : DB) : Decidable (orderInv db) :=
  inferInstanceAs (Decidable (∀ p ∈ db.plans,
    List.Perm ((stepsFor db p.id).map (fun (s : StepR) => s.sort_order))
      (natSeq 1 (stepsFor db p.id).length)))

instance (db : DB) : Decidable (WF db) :=
  inferInstanceAs (Decidable (_ ∧ _ ∧ _ ∧ _ ∧ _ ∧ _ ∧ ∀ s ∈ db.steps, ∃ p ∈ db.plans, p.id = s.plan_id))

instance (db : DB) : Decidable (ActiveUniq db) :=
  inferInstanceAs (Decidable (_ ∧ _))

instance (op : EngineOp) : Decidable (isStepStructureOp op) :=
  match op with
  | .addPlanTree _ _ _ => inferInstanceAs (Decidable True)
  | .addStepsBatch _ _ _ _ _ _ => inferInstanceAs (Decidable True)
  | .addStepTree _ _ _ _ _ => inferInstanceAs (Decidable True)
  | .moveStep _ _ => inferInstanceAs (Decidable True)
  | .deleteSteps _ _ => inferInstanceAs (Decidable True)
  | .addPlan _ _ => inferInstanceAs (Decidable False)
  | .updateStep _ _ _ => inferInstanceAs (Decidable False)
  | .setStepDoneWithGoals _ _ _ => inferInstanceAs (Decidable False)
  | .addGoalsBatch _ _ _ _ => inferInstanceAs (Decidable False)
  | .updateGoal _ _ _ => inferInstanceAs (Decidable False)
  | .setGoalStatus _ _ _ => inferInstanceAs (Decidable False)
  | .setGoalsStatus _ _ _ => inferInstanceAs (Decidable False)
  | .deleteGoals _ _ => inferInstanceAs (Decidable False)
  | .updatePlan _ _ _ => inferInstanceAs (Decidable False)
  | .deletePlan _ => inferInstanceAs (Decidable False)
  | .setActivePlan _ _ _ => inferInstanceAs (Decidable False)
  | .clearActivePlan _ => inferInstanceAs (Decidable False)

instance (op : EngineOp) : Decidable (noTodoOverride op) :=
  match op with
  | .updateStep _ _ ch => inferInstanceAs (Decidable (ch.status ≠ some Status.todo))
  | .updatePlan _ _ ch => inferInstanceAs (Decidable (ch.status ≠ some Status.todo))
  | .addPlan _ _ => inferInstanceAs (Decidable True)
  | .addPlanTree _ _ _ => inferInstanceAs (Decidable True)
  | .addStepsBatch _ _ _ _ _ _ => inferInstanceAs (Decidable True)
  | .addStepTree _ _ _ _ _ => inferInstanceAs (Decidable True)
  | .setStepDoneWithGoals _ _ _ => inferInstanceAs (Decidable True)
  | .moveStep _ _ => inferInstanceAs (Decidable True)
  | .deleteSteps _ _ => inferInstanceAs (Decidable True)
  | .addGoalsBatch _ _ _ _ => inferInstanceAs (Decidable True)
  | .updateGoal _ _ _ => inferInstanceAs (Decidable True)
  | .setGoalStatus _ _ _ => inferInstanceAs (Decidable True)
  | .setGoalsStatus _ _ _ => inferInstanceAs (Decidable True)
  | .deleteGoals _ _ => inferInstanceAs (Decidable True)
  | .deletePlan _ => inferInstanceAs (Decidable True)
  | .setActivePlan _ _ _ => inferInstanceAs (Decidable True)
  | .clearActivePlan _ => inferInstanceAs (Decidable True)

/-! ## Statement-support definitions -/

/-- The case normalisation `matchesKeywords` applies to the text and to every
term: identity when `matchCase`, ASCII lower-casing otherwise. -/
def kwNorm (rule : KeywordRule) (v : String) : String :=
  if rule.matchCase then v else strToLower v

/-- "`term` occurs in `text`" in the sense of the spec's keyword-rule clause:
substring containment after the rule's case normalisation. -/
def termOccurs (rule : KeywordRule) (text term : String) : Prop :=
  strIncludes (kwNorm rule text) (kwNorm rule term) = true

/-- The status `refreshPlanStatus` derives for a plan with at least one step:
`done` iff every step is done. -/
def derivedPlanStatus (db : DB) (planId : Nat) : Status :=
  if countDoneStepsOfPlan db planId == countStepsOfPlan db planId then .done else .todo

/-- The status `refreshStepStatus` derives for a step with at least one goal:
`done` iff every goal is done. -/
def derivedStepStatus (db : DB) (stepId : Nat) : Status :=
  if ((goalsForStep db stepId).filter (fun g => g.status == Status.done)).length
      == (goalsForStep db stepId).length
  then .done else .todo

/-- The early-guard cascade of `handleSessionIdle` (`index.ts` lines
500-527): true exactly when the invocation returns before the active-plan
lookup (in-flight, manual stop armed, skip-next-auto, or idle debounce). -/
def earlyGuardFires (source : String) (now : Nat) (st : SessionState) : Bool :=
  let trigger :=
    match st.pendingTrigger with
    | Option.none => (Option.none : Option Trigger)
    | some t => if now - t.atMs > TRIGGER_TTL_MS then Option.none else some t
  let idleSource := source == "session.idle" || source == "session.status"
  st.inFlight || st.manualStop.isSome || st.skipNextAuto ||
    (idleSource && trigger.isNone &&
      (match st.lastIdleAt with
       | some lastIdle => decide (now - lastIdle < IDLE_DEBOUNCE_MS)
       | Option.none => false))

def sortsOk (db : DB) (q : Nat) : Prop :=
  List.Perm ((stepsFor db q).map (fun s => s.sort_order))
    (natSeq 1 (stepsFor db q).length)

/-! ## Lemmas: rule engine -/

theorem any_map_occurs (src : String) (nrm : String → String) (l : List String) :
    ((l.map nrm).any fun term => strIncludes src term)
      = l.any (fun t => strIncludes src (nrm t)) := by
  induction l with
  | nil => rfl
  | cons a as ih => simp [List.any_cons, ih]

theorem all_map_occurs (src : String) (nrm : String → String) (l : List String) :
    ((l.map nrm).all fun term => strIncludes src term)
      = l.all (fun t => strIncludes src (nrm t)) := by
  induction l with
  | nil => rfl
  | cons a as ih => simp [List.all_cons, ih]

/-- The three-guard body of `matchesKeywords`, characterised over arbitrary
source text, normaliser and term sets. -/
theorem kwCore (src : String) (nrm : String → String) (anyL allL noneL : List String) :
    (if (decide ((anyL.map nrm).length > 0) && !(anyL.map nrm).any fun term => strIncludes src term) = true then false
     else if (!(allL.map nrm).all fun term => strIncludes src term) = true then false
     else if ((noneL.map nrm).any fun term => strIncludes src term) = true then false
     else true) = true
    ↔ ((anyL = [] ∨ ∃ t ∈ anyL, strIncludes src (nrm t) = true) ∧
       (∀ t ∈ allL, strIncludes src (nrm t) = true) ∧
       (∀ t ∈ noneL, ¬ strIncludes src (nrm t) = true)) := by
  rw [any_map_occurs, all_map_occurs, any_map_occurs, List.length_map]
  by_cases hnil : anyL = []
  · subst hnil
    cases hB : allL.all (fun t => strIncludes src (nrm t)) <;>
    cases hC : noneL.any (fun t => strIncludes src (nrm t)) <;>
    simp_all [List.all_eq_true, List.any_eq_true]
  · cases hA : anyL.any (fun t => strIncludes src (nrm t)) <;>
    cases hB : allL.all (fun t => strIncludes src (nrm t)) <;>
    cases hC : noneL.any (fun t => strIncludes src (nrm t)) <;>
    simp_all [List.all_eq_true, List.any_eq_true, List.any_eq_false, List.all_eq_false,
      List.length_pos, List.eq_nil_iff_forall_not_mem]

/-! ## Claim C7 -/

/-- C7: `matchesKeywords(text, rule)` returns true iff (the `any` set is empty
OR some `any` term occurs in the text) AND (every `all` term occurs) AND (no
`none` term occurs), with comparison case-insensitive unless `matchCase`; in
particular a rule with all three term sets empty matches every text. -/
theorem C7_matchesKeywords_semantics (text : String) (rule : KeywordRule) :
    (matchesKeywords text rule = true ↔
      ((rule.any = [] ∨ ∃ t ∈ rule.any, termOccurs rule text t) ∧
       (∀ t ∈ rule.all, termOccurs rule text t) ∧
       (∀ t ∈ rule.none, ¬ termOccurs rule text t))) ∧
    (rule.any = [] → rule.all = [] → rule.none = [] →
      matchesKeywords text rule = true) := by
  have core := kwCore (kwNorm rule text) (kwNorm rule) rule.any rule.all rule.none
  refine ⟨core, fun h1 h2 h3 => ?_⟩
  exact core.mpr ⟨Or.inl h1, by simp [h2], by simp [h3]⟩

/-- Witness for C7 at a concrete input: the empty keyword rule matches
"Hello World". -/
theorem C7_witness :
    matchesKeywords "Hello World" ⟨[], [], [], false⟩ = true :=
  (C7_matchesKeywords_semantics "Hello World" ⟨[], [], [], false⟩).2 rfl rfl rfl

/-! ## Claim C8 -/

/-- C8: on a submit failure, no retry is scheduled when retries are disabled,
the manual-stop guard is armed, or the failure is manual-cancellation-shaped
(the state is left untouched); otherwise the attempt counter for the
signature is incremented (started/reset to 1 when the signature differs), the
delay for attempt `k` is `delaysMs[k-1]` clamped to the last configured delay
when `k` exceeds the list length, and when the attempt count exceeds
`maxAttempts` the retry state is dropped and no timer is armed. -/
theorem C8_send_retry_policy (cfg : SendRetryConfig) (stopArmed : Bool)
    (errText : String) (prev : Option RetryState) (signature : String)
    (hne : cfg.delaysMs ≠ []) :
    ((cfg.enabled = false ∨ stopArmed = true ∨ isManualStopError errText = true) →
      scheduleSendRetry cfg stopArmed errText prev signature = (.notScheduled, prev)) ∧
    (cfg.enabled = true → stopArmed = false → isManualStopError errText = false →
      (∀ attempt,
        attempt = (match prev with
          | some p => if p.signature == signature then p.attempt + 1 else 1
          | Option.none => 1) →
        (attempt > cfg.maxAttempts →
          scheduleSendRetry cfg stopArmed errText prev signature = (.exhausted, Option.none)) ∧
        (attempt ≤ cfg.maxAttempts →
          scheduleSendRetry cfg stopArmed errText prev signature =
            (.scheduled attempt
              (if attempt ≤ cfg.delaysMs.length
               then cfg.delaysMs.getD (attempt - 1) 0
               else cfg.delaysMs.getD (cfg.delaysMs.length - 1) 0),
             some ⟨signature, attempt⟩)))) := by
  constructor
  · intro h
    unfold scheduleSendRetry
    rcases h with h | h | h
    · simp [h]
    · cases he : cfg.enabled <;> simp [h, he]
    · cases he : cfg.enabled <;> cases stopArmed <;> simp [h, he]
  · intro he hs hm attempt hatt
    constructor
    · intro hgt
      unfold scheduleSendRetry
      simp only [he, hs, hm, Bool.not_true, Bool.false_eq_true, if_false, if_true]
      rw [← hatt]
      simp [hgt]
    · intro hle
      unfold scheduleSendRetry
      simp only [he, hs, hm, Bool.not_true, Bool.false_eq_true, if_false, if_true]
      rw [← hatt]
      have hnotgt : ¬ attempt > cfg.maxAttempts := by omega
      simp only [hnotgt, if_false]
      have hlen : cfg.delaysMs.length ≥ 1 := by
        cases hd : cfg.delaysMs with
        | nil => exact absurd hd hne
        | cons a l => simp [hd]
      have hmin : min (attempt - 1) (cfg.delaysMs.length - 1)
          = if attempt ≤ cfg.delaysMs.length then attempt - 1 else cfg.delaysMs.length - 1 := by
        split <;> omega
      rw [hmin]
      split <;> simp

/-- Witness for C8 at the default config: a first transient failure schedules
a retry at the first configured delay. -/
theorem C8_witness :
    scheduleSendRetry ⟨true, 3, [1500, 5000, 15000]⟩ false "ECONNRESET" Option.none "1:2"
      = (.scheduled 1 1500, some ⟨"1:2", 1⟩) := by
  have h := (C8_send_retry_policy ⟨true, 3, [1500, 5000, 15000]⟩ false "ECONNRESET"
    Option.none "1:2" (by decide)).2 rfl rfl (by decide) 1 rfl
  simpa using h.2 (by decide)

/-! ## Lemmas: active-plan bookkeeping -/

theorem find?_append_of_forall_not {α : Type} (p : α → Bool) (l₁ l₂ : List α)
    (h : ∀ x ∈ l₁, p x = false) : (l₁ ++ l₂).find? p = l₂.find? p := by
  induction l₁ with
  | nil => simp
  | cons a as ih =>
    simp only [List.cons_append, List.find?, h a (by simp)]
    exact ih (fun x hx => h x (by simp [hx]))

/-- The re-select at the end of `setActivePlan` finds exactly the row just
inserted. -/
theorem find?_new_active (l : List ActiveR) (sid : String) (planId : Nat) :
    (((l.filter (fun r => r.session_id != sid)).filter (fun r => r.plan_id != planId))
        ++ [(⟨sid, planId⟩ : ActiveR)]).find? (fun r => r.session_id == sid)
      = some ⟨sid, planId⟩ := by
  rw [find?_append_of_forall_not]
  · simp [List.find?]
  · intro x hx
    have hx1 := List.mem_filter.mp hx
    have hx2 := List.mem_filter.mp hx1.1
    simpa using hx2.2

/-- Success path of `setActivePlan`: when the plan exists and either nobody
else holds it or `takeover` is set, the transaction commits and the active
table becomes "everything except this session's and this plan's old rows,
plus the new pointer". -/
theorem setActivePlan_success (db : DB) (sid : String) (planId : Nat) (takeover : Bool)
    (hex : db.plans.any (fun q => q.id == planId) = true)
    (hok : match db.active.find? (fun r => r.plan_id == planId) with
           | some row => row.session_id = sid ∨ takeover = true
           | Option.none => True) :
    setActivePlan sid planId takeover db = .ok (⟨sid, planId⟩,
      { db with active := ((db.active.filter (fun r => r.session_id != sid)).filter
          (fun r => r.plan_id != planId)) ++ [⟨sid, planId⟩] }) := by
  obtain ⟨q, hq, hqid⟩ := List.any_eq_true.mp hex
  have hfind : ∃ r, db.plans.find? (fun p => p.id == planId) = some r := by
    cases hfp : db.plans.find? (fun p => p.id == planId) with
    | none => exact absurd hqid (List.find?_eq_none.mp hfp q hq)
    | some r => exact ⟨r, rfl⟩
  obtain ⟨r, hr⟩ := hfind
  have htouch : touchPlan { db with active := ((db.active.filter (fun a => a.session_id != sid)).filter
        (fun a => a.plan_id != planId)) ++ [⟨sid, planId⟩] } planId
      = .ok { db with active := ((db.active.filter (fun a => a.session_id != sid)).filter
        (fun a => a.plan_id != planId)) ++ [⟨sid, planId⟩] } := by
    simp only [touchPlan]
    rw [if_pos hex]
  unfold setActivePlan
  rw [show getPlan db planId = .ok r from by simp [getPlan, hr]]
  cases hf : db.active.find? (fun a => a.plan_id == planId) with
  | none =>
    simp only [hf, Bind.bind, Except.bind, Pure.pure, Except.pure, htouch, find?_new_active]
  | some row =>
    simp only [hf] at hok
    have hcond : (row.session_id != sid && !takeover) = false := by
      rcases hok with h | h
      · simp [h]
      · simp [h]
    simp only [hf, hcond, Bool.false_eq_true, if_false, Bind.bind, Except.bind,
      Pure.pure, Except.pure, htouch, find?_new_active]

/-- Failure path of `setActivePlan`: the plan exists, another session's row
holds it, and `takeover` is false. -/
theorem setActivePlan_fail (db : DB) (sid : String) (planId : Nat)
    (hex : db.plans.any (fun q => q.id == planId) = true)
    (row : ActiveR)
    (hf : db.active.find? (fun r => r.plan_id == planId) = some row)
    (hne : row.session_id ≠ sid) :
    setActivePlan sid planId false db = .error (.invalidInput
      ("plan id " ++ toString planId ++ " is already active in session "
        ++ row.session_id ++ " (use --force to take over)")) := by
  obtain ⟨q, hq, hqid⟩ := List.any_eq_true.mp hex
  have hfind : ∃ r, db.plans.find? (fun p => p.id == planId) = some r := by
    cases hfp : db.plans.find? (fun p => p.id == planId) with
    | none => exact absurd hqid (List.find?_eq_none.mp hfp q hq)
    | some r => exact ⟨r, rfl⟩
  obtain ⟨r, hr⟩ := hfind
  unfold setActivePlan
  rw [show getPlan db planId = .ok r from by simp [getPlan, hr]]
  have hcond : (row.session_id != sid && !false) = true := by
    simp [hne]
  simp only [hf, hcond, if_true, Bind.bind, Except.bind]

theorem nodup_snoc {β : Type} (l : List β) (b : β) (hn : l.Nodup) (hb : b ∉ l) :
    (l ++ [b]).Nodup := by
  simp [List.nodup_append, hn, hb]

/-! ## Claim C5 -/

/-- C5: `setActivePlan(planId, takeover)` fails with `InvalidInput` when
another session holds the plan and `takeover` is false, leaving all rows
unchanged (the transaction rolls back); when `takeover` is true or no other
session holds the plan, it succeeds, the prior holder's pointer is gone
(every remaining row for this plan is the new one), exactly one row exists
for the calling session, and the per-session/per-plan uniqueness keys still
hold. -/
theorem C5_setActivePlan_takeover (db : DB) (sid : String) (planId : Nat)
    (hex : db.plans.any (fun q => q.id == planId) = true)
    (huniq : ActiveUniq db) :
    (∀ row ∈ db.active, row.plan_id = planId → row.session_id ≠ sid →
      setActivePlan sid planId false db = .error (.invalidInput
        ("plan id " ++ toString planId ++ " is already active in session "
          ++ row.session_id ++ " (use --force to take over)")) ∧
      applyOp db (.setActivePlan sid planId false) = db) ∧
    (∀ takeover : Bool,
      ((∀ row ∈ db.active, row.plan_id = planId → row.session_id = sid) ∨ takeover = true) →
      ∃ db', setActivePlan sid planId takeover db = .ok (⟨sid, planId⟩, db') ∧
        db'.plans = db.plans ∧ db'.steps = db.steps ∧ db'.goals = db.goals ∧
        (∀ row ∈ db'.active, row.plan_id = planId → row = ⟨sid, planId⟩) ∧
        db'.active.filter (fun r => r.session_id == sid) = [⟨sid, planId⟩] ∧
        ActiveUniq db') := by
  have hinj : ∀ a ∈ db.active, ∀ b ∈ db.active, a.plan_id = b.plan_id → a = b := by
    intro a ha b hb hab
    exact List.inj_on_of_nodup_map huniq.2 ha hb hab
  constructor
  · intro row hrow hplan hne
    have hfindrow : db.active.find? (fun r => r.plan_id == planId) = some row := by
      cases hf : db.active.find? (fun r => r.plan_id == planId) with
      | none =>
        exact absurd (by simp [hplan]) (List.find?_eq_none.mp hf row hrow)
      | some row' =>
        have h1 : row'.plan_id = planId := by simpa using List.find?_some hf
        have h2 : row' ∈ db.active := List.mem_of_find?_eq_some hf
        have : row' = row := hinj row' h2 row hrow (by omega)
        rw [this]
    refine ⟨setActivePlan_fail db sid planId hex row hfindrow hne, ?_⟩
    simp only [applyOp, setActivePlan_fail db sid planId hex row hfindrow hne, commit]
  · intro takeover htk
    have hok : match db.active.find? (fun r => r.plan_id == planId) with
           | some row => row.session_id = sid ∨ takeover = true
           | Option.none => True := by
      cases hf : db.active.find? (fun r => r.plan_id == planId) with
      | none => trivial
      | some row' =>
        rcases htk with hall | htrue
        · have h1 : row'.plan_id = planId := by simpa using List.find?_some hf
          have h2 : row' ∈ db.active := List.mem_of_find?_eq_some hf
          exact Or.inl (hall row' h2 h1)
        · exact Or.inr htrue
    refine ⟨_, setActivePlan_success db sid planId takeover hex hok, rfl, rfl, rfl, ?_, ?_, ?_⟩
    · intro row hrow hplan
      rcases List.mem_append.mp hrow with hmem | hmem
      · have := (List.mem_filter.mp hmem).2
        simp [hplan] at this
      · simpa using hmem
    · rw [List.filter_append]
      have h1 : ((db.active.filter (fun r => r.session_id != sid)).filter
          (fun r => r.plan_id != planId)).filter (fun r => r.session_id == sid) = [] := by
        rw [List.filter_eq_nil_iff]
        intro x hx
        have hx1 := List.mem_filter.mp hx
        have hx2 := List.mem_filter.mp hx1.1
        simpa using hx2.2
      rw [h1]
      simp
    · constructor
      · simp only [List.map_append, List.map_cons, List.map_nil]
        apply nodup_snoc
        · exact ((huniq.1).sublist (List.Sublist.map _
            ((List.filter_sublist _).trans (List.filter_sublist _))))
        · intro hmem
          obtain ⟨x, hx, hxs⟩ := List.mem_map.mp hmem
          have hx1 := List.mem_filter.mp hx
          have hx2 := List.mem_filter.mp hx1.1
          simp [hxs] at hx2
      · simp only [List.map_append, List.map_cons, List.map_nil]
        apply nodup_snoc
        · exact ((huniq.2).sublist (List.Sublist.map _
            ((List.filter_sublist _).trans (List.filter_sublist _))))
        · intro hmem
          obtain ⟨x, hx, hxs⟩ := List.mem_map.mp hmem
          have hx1 := List.mem_filter.mp hx
          simp [hxs] at hx1

/-- Witness for C5: a plan held by session "other" rejects activation by
session "me" without takeover. -/
theorem C5_witness :
    setActivePlan "me" 1 false
      ⟨[⟨1, "t", "c", Status.todo, Option.none⟩], [], [], [⟨"other", 1⟩], 2, 1, 1⟩
      = .error (.invalidInput
          "plan id 1 is already active in session other (use --force to take over)") :=
  ((C5_setActivePlan_takeover
      ⟨[⟨1, "t", "c", Status.todo, Option.none⟩], [], [], [⟨"other", 1⟩], 2, 1, 1⟩
      "me" 1 (by decide) (by decide)).1
    ⟨"other", 1⟩ (by decide) rfl (by decide)).1

/-! ## Claim C10 -/

/-- C10: the engine-level `setActivePlan` never checks the target plan's
status — activating a `done` plan succeeds and leaves an ActivePlan row
referencing a plan whose status is `done`; the "cannot activate plan; plan is
done" rejection happens only in the CLI command handler and in the Studio
bridge action, before the engine call. -/
theorem C10_done_plan_activation_layering (db : DB) (sid : String) (p : PlanR)
    (hp : db.plans.find? (fun q => q.id == p.id) = some p)
    (hdone : p.status = Status.done) :
    (∃ db', setActivePlan sid p.id true db = .ok (⟨sid, p.id⟩, db') ∧
       ⟨sid, p.id⟩ ∈ db'.active ∧
       ∃ q, getPlan db' p.id = .ok q ∧ q.status = Status.done) ∧
    handlePlanActivate sid p.id true db
      = .error (.invalidInput "cannot activate plan; plan is done") ∧
    actionPlanActivate sid p.id (some true) db
      = .error (.invalidInput "cannot activate plan; plan is done") := by
  have hex : db.plans.any (fun q => q.id == p.id) = true :=
    List.any_eq_true.mpr ⟨p, List.mem_of_find?_eq_some hp, by simp⟩
  have hok : match db.active.find? (fun r => r.plan_id == p.id) with
         | some row => row.session_id = sid ∨ (true : Bool) = true
         | Option.none => True := by
    cases db.active.find? (fun r => r.plan_id == p.id) with
    | none => trivial
    | some row => exact Or.inr rfl
  refine ⟨⟨_, setActivePlan_success db sid p.id true hex hok, ?_, p, ?_, hdone⟩, ?_, ?_⟩
  · exact List.mem_append.mpr (Or.inr (by simp))
  · simp [getPlan, hp]
  · simp [handlePlanActivate, getPlan, hp, hdone, Bind.bind, Except.bind]
  · simp [actionPlanActivate, getPlan, hp, hdone, Bind.bind, Except.bind]

/-- Witness for C10: a concrete done plan is activatable at the engine level
while both front ends reject it. -/
theorem C10_witness :
    (∃ db', setActivePlan "sess" 1 true
        ⟨[⟨1, "t", "c", Status.done, Option.none⟩], [], [], [], 2, 1, 1⟩
        = .ok (⟨"sess", 1⟩, db') ∧ ⟨"sess", 1⟩ ∈ db'.active ∧
        ∃ q, getPlan db' 1 = .ok q ∧ q.status = Status.done) ∧
    handlePlanActivate "sess" 1 true
        ⟨[⟨1, "t", "c", Status.done, Option.none⟩], [], [], [], 2, 1, 1⟩
      = .error (.invalidInput "cannot activate plan; plan is done") ∧
    actionPlanActivate "sess" 1 (some true)
        ⟨[⟨1, "t", "c", Status.done, Option.none⟩], [], [], [], 2, 1, 1⟩
      = .error (.invalidInput "cannot activate plan; plan is done") :=
  C10_done_plan_activation_layering
    ⟨[⟨1, "t", "c", Status.done, Option.none⟩], [], [], [], 2, 1, 1⟩
    "sess" ⟨1, "t", "c", Status.done, Option.none⟩ (by decide) rfl


/-! ## Lemmas: status refresh -/

theorem refreshPlanStatus_empty (sid : String) (planId : Nat) (db : DB)
    (h : countStepsOfPlan db planId = 0) :
    refreshPlanStatus sid planId db = .ok (createEmptyStatusChanges, db) := by
  unfold refreshPlanStatus
  simp [h]

theorem refreshPlanStatus_same (sid : String) (planId : Nat) (db : DB) (plan : PlanR)
    (h : countStepsOfPlan db planId ≠ 0)
    (hfind : db.plans.find? (fun p => p.id == planId) = some plan)
    (hsame : plan.status = derivedPlanStatus db planId) :
    refreshPlanStatus sid planId db = .ok (createEmptyStatusChanges, db) := by
  unfold refreshPlanStatus
  rw [if_neg (by simpa using h)]
  simp only [getPlan, hfind]
  rw [if_neg]
  simp only [derivedPlanStatus] at hsame
  simp [hsame]

/-- The status-changing branch of `refreshPlanStatus`: the plan row is set to
the derived status; on a transition to `done` the plan's active rows are
deleted, with the "active plan cleared" event recorded only when the current
session held one of them. -/
theorem refreshPlanStatus_update (sid : String) (planId : Nat) (db : DB) (plan : PlanR)
    (h : countStepsOfPlan db planId ≠ 0)
    (hfind : db.plans.find? (fun p => p.id == planId) = some plan)
    (hdiff : plan.status ≠ derivedPlanStatus db planId) :
    ∃ reason,
      refreshPlanStatus sid planId db = .ok
        (⟨[], [⟨planId, plan.status, derivedPlanStatus db planId, reason⟩],
          if derivedPlanStatus db planId = Status.done
              ∧ (db.active.filter (fun r => r.plan_id == planId)).any
                  (fun r => r.session_id == sid) = true
          then [⟨planId, "plan marked done"⟩] else []⟩,
        { db with plans := setPlanStatus db.plans planId (derivedPlanStatus db planId),
                  active := if derivedPlanStatus db planId = Status.done
                    then db.active.filter (fun r => r.plan_id != planId)
                    else db.active }) := by
  unfold refreshPlanStatus
  rw [if_neg (by simpa using h)]
  simp only [getPlan, hfind]
  by_cases hc : countDoneStepsOfPlan db planId = countStepsOfPlan db planId
  · have hb : (countDoneStepsOfPlan db planId == countStepsOfPlan db planId) = true := by
      simp [hc]
    simp only [derivedPlanStatus, hb, if_true] at hdiff ⊢
    rw [if_pos (by simpa using hdiff)]
    refine ⟨"all steps are done (" ++ toString (countDoneStepsOfPlan db planId) ++ "/"
      ++ toString (countStepsOfPlan db planId) ++ ")", ?_⟩
    simp only [clearActivePlansForPlan]
    simp
    split <;> rfl
  · have hb : (countDoneStepsOfPlan db planId == countStepsOfPlan db planId) = false := by
      simp [hc]
    simp only [derivedPlanStatus, hb, Bool.false_eq_true, if_false] at hdiff ⊢
    rw [if_pos (by simpa using hdiff)]
    refine ⟨"steps done " ++ toString (countDoneStepsOfPlan db planId) ++ "/"
      ++ toString (countStepsOfPlan db planId), ?_⟩
    simp

theorem refreshStepStatus_empty (sid : String) (stepId : Nat) (db : DB)
    (h : goalsForStep db stepId = []) :
    refreshStepStatus sid stepId db = .ok (createEmptyStatusChanges, db) := by
  unfold refreshStepStatus
  simp [h]

/-- `refreshStepStatus` on a step with goals: the step row is set to the
derived status when it differs, then the owning plan is refreshed. -/
theorem refreshStepStatus_split (sid : String) (stepId : Nat) (db : DB) (step : StepR)
    (hne : goalsForStep db stepId ≠ [])
    (hstep : db.steps.find? (fun s => s.id == stepId) = some step) :
    ∃ reason,
      refreshStepStatus sid stepId db =
        (match refreshPlanStatus sid step.plan_id
            (if step.status = derivedStepStatus db stepId then db
             else { db with steps := setStepStatus db.steps stepId (derivedStepStatus db stepId) }) with
         | .error e => .error e
         | .ok (pc, db') => .ok (mergeStatusChanges
             (if step.status = derivedStepStatus db stepId then createEmptyStatusChanges
              else ⟨[⟨stepId, step.status, derivedStepStatus db stepId, reason⟩], [], []⟩) pc, db')) := by
  unfold refreshStepStatus
  have hbe : (goalsForStep db stepId).isEmpty = false := by
    cases hg : goalsForStep db stepId with
    | nil => exact absurd hg hne
    | cons a l => simp [hg]
  simp only [hbe, Bool.false_eq_true, if_false, getStep, hstep]
  by_cases hsame : step.status = derivedStepStatus db stepId
  · refine ⟨"", ?_⟩
    have hb : (step.status != derivedStepStatus db stepId) = false := by simpa using hsame
    simp only [derivedStepStatus] at hb
    simp only [hb, Bool.false_eq_true, if_false, if_pos hsame]
  · refine ⟨(if (((goalsForStep db stepId).filter (fun g => g.status == Status.done)).length
        == (goalsForStep db stepId).length) = true then
      "all goals are done (" ++ toString ((goalsForStep db stepId).filter
          (fun g => g.status == Status.done)).length
        ++ "/" ++ toString (goalsForStep db stepId).length ++ ")"
      else "goals done " ++ toString ((goalsForStep db stepId).filter
          (fun g => g.status == Status.done)).length
        ++ "/" ++ toString (goalsForStep db stepId).length), ?_⟩
    have hb : (step.status != derivedStepStatus db stepId) = true := by simpa using hsame
    simp only [derivedStepStatus] at hb
    simp only [hb, if_true, if_neg hsame]
    rfl

/-! ## Lemmas: generic list plumbing -/

theorem find?_map_pointwise {α : Type} (p : α → Bool) (f : α → α) (l : List α)
    (hf : ∀ x, p (f x) = p x) : (l.map f).find? p = (l.find? p).map f := by
  induction l with
  | nil => rfl
  | cons a as ih =>
    simp only [List.map_cons, List.find?, hf a]
    cases hp : p a <;> simp [List.find?, hp, ih]

theorem setPlanStatus_map_id (l : List PlanR) (planId : Nat) (st : Status) :
    (setPlanStatus l planId st).map (fun p => p.id) = l.map (fun p => p.id) := by
  unfold setPlanStatus
  rw [List.map_map]
  apply List.map_congr_left
  intro p _
  simp only [Function.comp]
  split <;> rfl

theorem exists_find?_of_any {α : Type} (p : α → Bool) (l : List α) (h : l.any p = true) :
    ∃ r, l.find? p = some r := by
  obtain ⟨q, hq, hqx⟩ := List.any_eq_true.mp h
  cases hf : l.find? p with
  | none => exact absurd hqx (List.find?_eq_none.mp hf q hq)
  | some r => exact ⟨r, rfl⟩

theorem any_id_iff (l : List PlanR) (x : Nat) :
    l.any (fun p => p.id == x) = true ↔ x ∈ l.map (fun p => p.id) := by
  rw [List.any_eq_true]
  constructor
  · rintro ⟨p, hp, hpx⟩
    exact List.mem_map.mpr ⟨p, hp, by simpa using hpx⟩
  · intro hx
    obtain ⟨p, hp, hpx⟩ := List.mem_map.mp hx
    exact ⟨p, hp, by simp [hpx]⟩

theorem any_id_eq_of_map_id_eq {l₁ l₂ : List PlanR}
    (h : l₁.map (fun p => p.id) = l₂.map (fun p => p.id)) (x : Nat) :
    l₁.any (fun p => p.id == x) = l₂.any (fun p => p.id == x) := by
  rw [Bool.eq_iff_iff, any_id_iff, any_id_iff, h]

/-- `refreshPlanStatus` always commits when the plan row is present, and it
never touches the steps, goals, or the set of plan ids. -/
theorem refreshPlanStatus_ok_of_plan_found (sid : String) (planId : Nat) (db : DB) (r : PlanR)
    (hfind : db.plans.find? (fun p => p.id == planId) = some r) :
    ∃ ch db', refreshPlanStatus sid planId db = .ok (ch, db') ∧
      db'.plans.map (fun p => p.id) = db.plans.map (fun p => p.id) ∧
      db'.steps = db.steps ∧ db'.goals = db.goals := by
  by_cases h0 : countStepsOfPlan db planId = 0
  · exact ⟨_, _, refreshPlanStatus_empty sid planId db h0, rfl, rfl, rfl⟩
  · by_cases hsame : r.status = derivedPlanStatus db planId
    · exact ⟨_, _, refreshPlanStatus_same sid planId db r h0 hfind hsame, rfl, rfl, rfl⟩
    · obtain ⟨reason, h⟩ := refreshPlanStatus_update sid planId db r h0 hfind hsame
      refine ⟨_, _, h, ?_, rfl, rfl⟩
      simp [setPlanStatus_map_id]

/-! ## Lemmas: sorted reads -/

theorem insertStepSorted_perm (a : StepR) (l : List StepR) :
    List.Perm (insertStepSorted a l) (a :: l) := by
  induction l with
  | nil => exact List.Perm.refl _
  | cons b bs ih =>
    unfold insertStepSorted
    split
    · exact List.Perm.refl _
    · exact (ih.cons b).trans (List.Perm.swap a b bs)

theorem sortSteps_perm (l : List StepR) : List.Perm (sortSteps l) l := by
  induction l with
  | nil => exact List.Perm.refl _
  | cons a as ih =>
    unfold sortSteps
    exact (insertStepSorted_perm a (sortSteps as)).trans (ih.cons a)

theorem insertGoalSorted_perm (a : GoalR) (l : List GoalR) :
    List.Perm (insertGoalSorted a l) (a :: l) := by
  induction l with
  | nil => exact List.Perm.refl _
  | cons b bs ih =>
    unfold insertGoalSorted
    split
    · exact List.Perm.refl _
    · exact (ih.cons b).trans (List.Perm.swap a b bs)

theorem sortGoals_perm (l : List GoalR) : List.Perm (sortGoals l) l := by
  induction l with
  | nil => exact List.Perm.refl _
  | cons a as ih =>
    unfold sortGoals
    exact (insertGoalSorted_perm a (sortGoals as)).trans (ih.cons a)

theorem nextStep_count_pos (db : DB) (planId : Nat) (next : StepR)
    (h : nextStep db planId = some next) : countStepsOfPlan db planId > 0 := by
  unfold nextStep at h
  have hmem : next ∈ db.steps.filter (fun s => s.plan_id == planId && s.status == Status.todo) := by
    have := (sortSteps_perm (db.steps.filter
      (fun s => s.plan_id == planId && s.status == Status.todo))).mem_iff (a := next)
    rw [← this]
    cases hl : sortSteps (db.steps.filter
      (fun s => s.plan_id == planId && s.status == Status.todo)) with
    | nil => rw [hl] at h; simp at h
    | cons x xs =>
      rw [hl] at h
      simp only [List.head?] at h
      injection h with h
      rw [h] at hl ⊢
      simp
  have hf := List.mem_filter.mp hmem
  have hmem2 : next ∈ db.steps.filter (fun s => s.plan_id == planId) := by
    rw [List.mem_filter]
    refine ⟨hf.1, ?_⟩
    have := hf.2
    simp only [Bool.and_eq_true] at this
    exact this.1
  unfold countStepsOfPlan
  exact List.length_pos.mpr (List.ne_nil_of_mem hmem2)

/-! ## Lemmas: direct completion paths -/

/-- `updateStep status: done` commits when the step has no pending goal, the
step exists and its plan exists. -/
theorem updateStep_done_ok (db : DB) (sid : String) (id : Nat) (s : StepR)
    (hnone : nextGoalForStep db id = Option.none)
    (hfs : db.steps.find? (fun t => t.id == id) = some s)
    (hplan : db.plans.any (fun p => p.id == s.plan_id) = true) :
    (updateStep sid id { status := some Status.done } db).isOk = true := by
  unfold updateStep
  simp only [hnone, Bind.bind, Except.bind, Pure.pure, Except.pure, getStep, hfs]
  rw [if_pos (show (some Status.done == some Status.done) = true from rfl)]
  generalize hL : List.map _ db.steps = L
  have hfind2 : ∃ v : StepR, L.find? (fun t => t.id == id) = some v ∧ v.plan_id = s.plan_id := by
    rw [← hL, find?_map_pointwise _ _ _ (fun x => by split <;> rfl), hfs]
    refine ⟨_, rfl, ?_⟩
    dsimp only
    split <;> rfl
  obtain ⟨v, hv, hvp⟩ := hfind2
  simp only [hv]
  rw [if_pos (show (some Status.done).isSome = true from rfl)]
  obtain ⟨r, hr⟩ := exists_find?_of_any _ _ hplan
  obtain ⟨ch, db₂, heq, hids, _, _⟩ :=
    refreshPlanStatus_ok_of_plan_found sid v.plan_id
      { db with steps := L } r (by rw [hvp]; exact hr)
  simp only [heq]
  have htouch : touchPlan db₂ v.plan_id = .ok db₂ := by
    unfold touchPlan
    rw [if_pos]
    rw [any_id_eq_of_map_id_eq hids, hvp]
    exact hplan
  simp only [htouch]
  rfl

/-- `updatePlan status: done` is rejected exactly when a pending step exists;
the error embeds the detail of the first pending step. -/
theorem updatePlan_done_reject (db : DB) (sid : String) (id : Nat) (next : StepR)
    (hnext : nextStep db id = some next) :
    updatePlanWithActiveClear sid id { status := some Status.done } db = .error (.invalidInput
      ("cannot mark plan done; next pending step:\n"
        ++ formatStepDetail next (goalsForStep db next.id))) := by
  have hcount : countStepsOfPlan db id > 0 := nextStep_count_pos db id next hnext
  unfold updatePlanWithActiveClear updatePlanWithConn
  rw [if_pos (show ((some Status.done : Option Status) == some Status.done) = true from rfl)]
  rw [if_pos hcount]
  simp only [hnext, Bind.bind, Except.bind, Pure.pure, Except.pure]

/-- `updatePlan status: done` commits when the plan exists and has no pending
step (its steps — if any — are all done). -/
theorem updatePlan_done_ok (db : DB) (sid : String) (id : Nat) (r : PlanR)
    (hnone : nextStep db id = Option.none)
    (hfr : db.plans.find? (fun p => p.id == id) = some r) :
    (updatePlanWithActiveClear sid id { status := some Status.done } db).isOk = true := by
  have hrid : (r.id == id) = true := by
    have : r.id = id := by simpa using List.find?_some hfr
    simp [this]
  unfold updatePlanWithActiveClear updatePlanWithConn
  rw [if_pos (show ((some Status.done : Option Status) == some Status.done) = true from rfl)]
  by_cases hcount : countStepsOfPlan db id > 0
  · rw [if_pos hcount]
    simp only [hnone, Bind.bind, Except.bind, Pure.pure, Except.pure, getPlan, hfr]
    rw [find?_map_pointwise _ _ _ (fun x => by split <;> rfl), hfr]
    simp only [Option.map, hrid, if_true]
    rfl
  · rw [if_neg hcount]
    simp only [hnone, Bind.bind, Except.bind, Pure.pure, Except.pure, getPlan, hfr]
    rw [find?_map_pointwise _ _ _ (fun x => by split <;> rfl), hfr]
    simp only [Option.map, hrid, if_true]
    rfl

/-! ## Claim C3 (corrected) -/

/-- C3 counterexample: the claim "setting status to done directly succeeds
only for an entity with zero children" is false — a step with one (already
done) goal accepts a direct `status: done` update, and a plan with one (done)
step likewise. -/
theorem C3_counterexample :
    (goalsFor (applyOps DB.empty
        [.addPlanTree "t" "c" [⟨"s1", .ai, []⟩],
         .addGoalsBatch "sess" 1 ["g1"] .done]) 1).length = 1
    ∧ (updateStep "sess" 1 { status := some Status.done }
        (applyOps DB.empty
          [.addPlanTree "t" "c" [⟨"s1", .ai, []⟩],
           .addGoalsBatch "sess" 1 ["g1"] .done])).isOk = true
    ∧ (stepsFor (applyOps DB.empty
        [.addPlanTree "t" "c" [⟨"s1", .ai, []⟩],
         .addGoalsBatch "sess" 1 ["g1"] .done]) 1).length = 1
    ∧ (updatePlanWithActiveClear "sess" 1 { status := some Status.done }
        (applyOps DB.empty
          [.addPlanTree "t" "c" [⟨"s1", .ai, []⟩],
           .addGoalsBatch "sess" 1 ["g1"] .done])).isOk = true := by
  decide

/-- C3 (amended): `updateStep(id, {status: done})` fails with an
`InvalidInput` error naming the first *pending* goal whenever one exists, and
commits whenever no pending goal exists (children may exist if all done);
analogously `updatePlan(id, {status: done})` fails naming the first pending
step whenever one exists, and commits whenever none exists.  A rejected
update persists no state change (the transaction rolls back). -/
theorem C3_pending_child_rejection (db : DB) (sid : String) (id : Nat) :
    (∀ pending, nextGoalForStep db id = some pending →
      updateStep sid id { status := some Status.done } db = .error (.invalidInput
        ("cannot mark step done; next pending goal: " ++ pending.content
          ++ " (id " ++ toString pending.id ++ ")")) ∧
      applyOp db (.updateStep sid id { status := some Status.done }) = db) ∧
    (nextGoalForStep db id = Option.none →
      ∀ s, db.steps.find? (fun t => t.id == id) = some s →
        db.plans.any (fun p => p.id == s.plan_id) = true →
        (updateStep sid id { status := some Status.done } db).isOk = true) ∧
    (∀ next, nextStep db id = some next →
      updatePlanWithActiveClear sid id { status := some Status.done } db = .error (.invalidInput
        ("cannot mark plan done; next pending step:\n"
          ++ formatStepDetail next (goalsForStep db next.id))) ∧
      applyOp db (.updatePlan sid id { status := some Status.done }) = db) ∧
    (nextStep db id = Option.none →
      ∀ r, db.plans.find? (fun p => p.id == id) = some r →
        (updatePlanWithActiveClear sid id { status := some Status.done } db).isOk = true) := by
  refine ⟨?_, ?_, ?_, ?_⟩
  · intro pending hpending
    have herr : updateStep sid id { status := some Status.done } db = .error (.invalidInput
        ("cannot mark step done; next pending goal: " ++ pending.content
          ++ " (id " ++ toString pending.id ++ ")")) := by
      unfold updateStep
      simp only [hpending, Bind.bind, Except.bind]
      rfl
    exact ⟨herr, by simp only [applyOp, herr, commit]⟩
  · intro hnone s hfs hplan
    exact updateStep_done_ok db sid id s hnone hfs hplan
  · intro next hnext
    have herr := updatePlan_done_reject db sid id next hnext
    exact ⟨herr, by simp only [applyOp, herr, commit]⟩
  · intro hnone r hfr
    exact updatePlan_done_ok db sid id r hnone hfr

/-- Witness for C3 (amended): a step with a pending goal rejects direct
completion with the goal named in the error. -/
theorem C3_witness :
    updateStep "sess" 1 { status := some Status.done }
      (applyOps DB.empty [.addPlanTree "t" "c" [⟨"s1", .ai, ["g1"]⟩]])
      = .error (.invalidInput "cannot mark step done; next pending goal: g1 (id 1)") :=
  ((C3_pending_child_rejection
      (applyOps DB.empty [.addPlanTree "t" "c" [⟨"s1", .ai, ["g1"]⟩]]) "sess" 1).1
    ⟨1, 1, "g1", Status.todo, Option.none⟩ (by decide)).1


/-! ## Claim C4 (corrected) -/

theorem filter_eq_nil_of_filter_ne (l : List ActiveR) (x : Nat) :
    (l.filter (fun r => r.plan_id != x)).filter (fun r => r.plan_id == x) = [] := by
  rw [List.filter_eq_nil_iff]
  intro a ha
  have h := (List.mem_filter.mp ha).2
  simpa using h

theorem any_session_iff (l : List ActiveR) (x : Nat) (sid : String) :
    (l.filter (fun r => r.plan_id == x)).any (fun r => r.session_id == sid) = true
      ↔ ∃ r ∈ l, r.plan_id = x ∧ r.session_id = sid := by
  rw [List.any_eq_true]
  constructor
  · rintro ⟨r, hr, hs⟩
    have h := List.mem_filter.mp hr
    exact ⟨r, h.1, by simpa using h.2, by simpa using hs⟩
  · rintro ⟨r, hr, hp, hs⟩
    exact ⟨r, List.mem_filter.mpr ⟨hr, by simp [hp]⟩, by simp [hs]⟩

/-- Full characterisation of `updatePlanWithActiveClear` for a plain
`status: done` update on a plan with no pending step. -/
theorem updatePlanWithActiveClear_done (db : DB) (sid : String) (id : Nat) (r : PlanR)
    (hnone : nextStep db id = Option.none)
    (hfr : db.plans.find? (fun p => p.id == id) = some r) :
    updatePlanWithActiveClear sid id { status := some Status.done } db
      = .ok ((⟨r.id, r.title, r.content, Status.done, r.comment⟩,
          (db.active.filter (fun a => a.plan_id == r.id)).any (fun a => a.session_id == sid)),
        { db with
            plans := db.plans.map (fun p =>
              if p.id == id then
                { p with title := r.title, content := r.content,
                         status := Status.done, comment := r.comment }
              else p),
            active := db.active.filter (fun a => a.plan_id != r.id) }) := by
  have hrid : (r.id == id) = true := by
    have : r.id = id := by simpa using List.find?_some hfr
    simp [this]
  unfold updatePlanWithActiveClear updatePlanWithConn
  rw [if_pos (show ((some Status.done : Option Status) == some Status.done) = true from rfl)]
  by_cases hcount : countStepsOfPlan db id > 0
  · rw [if_pos hcount]
    simp only [hnone, Bind.bind, Except.bind, Pure.pure, Except.pure, getPlan, hfr]
    rw [find?_map_pointwise _ _ _ (fun x => by split <;> rfl), hfr]
    simp only [Option.map, hrid, if_true]
    simp only [clearActivePlansForPlan]
    rfl
  · rw [if_neg hcount]
    simp only [hnone, Bind.bind, Except.bind, Pure.pure, Except.pure, getPlan, hfr]
    rw [find?_map_pointwise _ _ _ (fun x => by split <;> rfl), hfr]
    simp only [Option.map, hrid, if_true]
    simp only [clearActivePlansForPlan]
    rfl

/-- C4 counterexample: a plan transitioning to `done` through the derived
path with no ActivePlan row for the calling session records *no*
"active plan cleared" event, contradicting the claim that such an event is
always recorded as part of the status changes. -/
theorem C4_counterexample :
    (match updateStep "sess" 1 { status := some Status.done }
        (applyOps DB.empty [.addPlanTree "t" "c" [⟨"s1", .ai, []⟩]]) with
     | .ok ((_, ch), db') =>
        !ch.plans.isEmpty && ch.active_plans_cleared.isEmpty
          && db'.plans.any (fun p => p.id == 1 && p.status == Status.done)
     | .error _ => false) = true := by
  decide

/-- C4 (amended): whenever a plan's status transitions to `done` — via the
derived recomputation (`refreshPlanStatus`) or via the direct update
(`updatePlanWithActiveClear`) — no ActivePlan row references that plan
afterwards; the "active plan cleared" event (resp. the returned `cleared`
flag) is produced exactly when the *calling session's* ActivePlan row
referenced the plan — when no row, or only another session's row, referenced
it, the rows are still deleted but no event is recorded. -/
theorem C4_done_transition_active_clear (sid : String) (planId : Nat) (db : DB) (plan : PlanR)
    (hfind : db.plans.find? (fun p => p.id == planId) = some plan) :
    (countStepsOfPlan db planId ≠ 0 → plan.status ≠ derivedPlanStatus db planId →
      derivedPlanStatus db planId = Status.done →
      ∃ ch db', refreshPlanStatus sid planId db = .ok (ch, db') ∧
        db'.active.filter (fun r => r.plan_id == planId) = [] ∧
        (ch.active_plans_cleared ≠ [] ↔
          ∃ r ∈ db.active, r.plan_id = planId ∧ r.session_id = sid)) ∧
    (nextStep db planId = Option.none →
      ∃ cleared db', updatePlanWithActiveClear sid planId { status := some Status.done } db
          = .ok ((⟨plan.id, plan.title, plan.content, Status.done, plan.comment⟩, cleared), db') ∧
        db'.active.filter (fun r => r.plan_id == planId) = [] ∧
        (cleared = true ↔ ∃ r ∈ db.active, r.plan_id = planId ∧ r.session_id = sid)) := by
  have hpid : plan.id = planId := by simpa using List.find?_some hfind
  constructor
  · intro h0 hdiff hdone
    obtain ⟨reason, heq⟩ := refreshPlanStatus_update sid planId db plan h0 hfind hdiff
    rw [hdone] at heq
    refine ⟨_, _, heq, ?_, ?_⟩
    · show (if Status.done = Status.done then
          db.active.filter (fun r => r.plan_id != planId) else db.active).filter
          (fun r => r.plan_id == planId) = []
      rw [if_pos rfl]
      exact filter_eq_nil_of_filter_ne db.active planId
    · show ¬ (if Status.done = Status.done ∧ ((db.active.filter
          (fun r => r.plan_id == planId)).any fun r => r.session_id == sid) = true then
          [(⟨planId, "plan marked done"⟩ : ActivePlanCleared)] else []) = [] ↔ _
      by_cases hany : ((db.active.filter (fun r => r.plan_id == planId)).any
          (fun r => r.session_id == sid)) = true
      · rw [if_pos ⟨rfl, hany⟩]
        constructor
        · intro _
          exact (any_session_iff db.active planId sid).mp hany
        · intro _
          simp
      · rw [if_neg (fun hc => hany hc.2)]
        constructor
        · intro hne
          exact absurd rfl hne
        · rintro ⟨r, hr, hp, hs⟩
          exact absurd ((any_session_iff db.active planId sid).mpr ⟨r, hr, hp, hs⟩) hany
  · intro hnone
    refine ⟨_, _, updatePlanWithActiveClear_done db sid planId plan hnone hfind, ?_, ?_⟩
    · rw [hpid]
      exact filter_eq_nil_of_filter_ne db.active planId
    · rw [hpid]
      exact any_session_iff db.active planId sid

/-! ## Claim C6 -/

/-- C6: `addStepsBatch` first normalizes existing gaps, then shifts every
step at or after the insertion point by the batch size, then inserts the new
steps contiguously from the insertion point, defaulting to append.
Concretely: inserting `["a","b"]` at position 2 into a plan with steps at
1,2,3 yields `[1:old1, 2:a, 3:b, 4:old2, 5:old3]`; omitting the position
appends; steps previously at gapped positions 2 and 5 are renumbered to 1,2
before the insertion. -/
theorem C6_addStepsBatch_insertion :
    ((stepsOfPlan (applyOps DB.empty
        [.addPlanTree "t" "c" [⟨"old1", .ai, []⟩, ⟨"old2", .ai, []⟩, ⟨"old3", .ai, []⟩],
         .addStepsBatch "sess" 1 ["a", "b"] .todo .ai (some 2)]) 1).map
      (fun s => (s.sort_order, s.content))
      = [(1, "old1"), (2, "a"), (3, "b"), (4, "old2"), (5, "old3")])
    ∧ ((stepsOfPlan (applyOps DB.empty
        [.addPlanTree "t" "c" [⟨"old1", .ai, []⟩, ⟨"old2", .ai, []⟩],
         .addStepsBatch "sess" 1 ["a"] .todo .ai Option.none]) 1).map
      (fun s => (s.sort_order, s.content))
      = [(1, "old1"), (2, "old2"), (3, "a")])
    ∧ ((match addStepsBatch "sess" 1 ["a"] .todo .ai (some 2)
        ⟨[⟨1, "t", "c", .todo, Option.none⟩],
         [⟨1, 1, "x", .todo, .ai, 2, Option.none⟩, ⟨2, 1, "y", .todo, .ai, 5, Option.none⟩],
         [], [], 2, 3, 1⟩ with
      | .ok (_, db') => (stepsOfPlan db' 1).map (fun s => (s.sort_order, s.content))
      | .error _ => []) = [(1, "x"), (2, "a"), (3, "y")]) := by
  decide

/-- Witness for C4 (amended): a plan whose single step is done, held active
by the calling session, transitions to done with the rows cleared and the
event recorded. -/
theorem C4_witness :
    ∃ ch db', refreshPlanStatus "sess" 1
        ⟨[⟨1, "t", "c", Status.todo, Option.none⟩],
         [⟨1, 1, "s", Status.done, Executor.ai, 1, Option.none⟩], [],
         [⟨"sess", 1⟩], 2, 2, 1⟩ = .ok (ch, db') ∧
      db'.active.filter (fun r => r.plan_id == 1) = [] ∧
      (ch.active_plans_cleared ≠ [] ↔
        ∃ r ∈ ([⟨"sess", 1⟩] : List ActiveR), r.plan_id = 1 ∧ r.session_id = "sess") :=
  (C4_done_transition_active_clear "sess" 1
    ⟨[⟨1, "t", "c", Status.todo, Option.none⟩],
     [⟨1, 1, "s", Status.done, Executor.ai, 1, Option.none⟩], [],
     [⟨"sess", 1⟩], 2, 2, 1⟩
    ⟨1, "t", "c", Status.todo, Option.none⟩ (by decide)).1
    (by decide) (by decide) (by decide)


/-! ## Claim C9 (corrected) -/

/-- After the early guards, the three stop conditions (no active plan, no
pending step, executor not ai) each return without prompting, with the wait
timer cleared and the pending trigger dropped. -/
theorem dispatchCore_guard (db : DB) (cfg : SendRetryConfig) (sid : String)
    (now : Nat) (resolved : ResolvedContext) (promptError : Option String)
    (force : Bool) (st : SessionState)
    (hguard : getActivePlan db sid = Option.none ∨
      (∀ a, getActivePlan db sid = some a → nextStep db a.plan_id = Option.none) ∨
      (∀ a s, getActivePlan db sid = some a → nextStep db a.plan_id = some s →
        s.executor ≠ Executor.ai)) :
    (dispatchCore db cfg sid now resolved promptError force st).promptSent = false ∧
    (dispatchCore db cfg sid now resolved promptError force st).state.waitTimerAt = Option.none ∧
    (dispatchCore db cfg sid now resolved promptError force st).state.pendingTrigger = Option.none ∧
    ((dispatchCore db cfg sid now resolved promptError force st).outcome = DispatchOutcome.stopNoActivePlan ∨
     (dispatchCore db cfg sid now resolved promptError force st).outcome = DispatchOutcome.stopNoPendingStep ∨
     (dispatchCore db cfg sid now resolved promptError force st).outcome = DispatchOutcome.stopExecutorNotAi) := by
  unfold dispatchCore
  cases hA : getActivePlan db sid with
  | none => simp
  | some a =>
    cases hN : nextStep db a.plan_id with
    | none => simp [hN]
    | some s =>
      simp only [hN]
      have hex : s.executor ≠ Executor.ai := by
        rcases hguard with h | h | h
        · rw [hA] at h; exact absurd h (by simp)
        · have := h a hA; rw [hN] at this; exact absurd this (by simp)
        · exact h a s hA hN
      have hne : (s.executor != Executor.ai) = true := by
        simp [bne_iff_ne, hex]
      simp only [hne]
      simp

/-- C9: under the three guard conditions `session.promptAsync` is never
called; when additionally no early guard fires, the wait timer is cleared,
the pending trigger is dropped, and the invocation stops at one of the three
stop return points. -/
theorem C9_dispatch_guard (db : DB) (cfg : SendRetryConfig) (sid source : String)
    (now : Nat) (resolved : ResolvedContext) (promptError : Option String)
    (st : SessionState)
    (hguard : getActivePlan db sid = Option.none ∨
      (∀ a, getActivePlan db sid = some a → nextStep db a.plan_id = Option.none) ∨
      (∀ a s, getActivePlan db sid = some a → nextStep db a.plan_id = some s →
        s.executor ≠ Executor.ai)) :
    (handleSessionIdle db cfg sid source now resolved promptError st).promptSent = false ∧
    (earlyGuardFires source now st = false →
      (handleSessionIdle db cfg sid source now resolved promptError st).state.waitTimerAt = Option.none ∧
      (handleSessionIdle db cfg sid source now resolved promptError st).state.pendingTrigger = Option.none ∧
      ((handleSessionIdle db cfg sid source now resolved promptError st).outcome = DispatchOutcome.stopNoActivePlan ∨
       (handleSessionIdle db cfg sid source now resolved promptError st).outcome = DispatchOutcome.stopNoPendingStep ∨
       (handleSessionIdle db cfg sid source now resolved promptError st).outcome = DispatchOutcome.stopExecutorNotAi)) := by
  unfold handleSessionIdle earlyGuardFires
  cases hpt : st.pendingTrigger with
  | none =>
    simp only [hpt]
    by_cases hif : st.inFlight
    · simp [hif]
    · by_cases hms : st.manualStop.isSome
      · simp [hif, hms]
      · by_cases hsk : st.skipNextAuto
        · simp [hif, hms, hsk]
        · by_cases hdb : ((source == "session.idle" || source == "session.status") &&
              (match st.lastIdleAt with
               | some lastIdle => decide (now - lastIdle < IDLE_DEBOUNCE_MS)
               | Option.none => false)) = true
          · simp [hif, hms, hsk, hdb]
          · simp [hif, hms, hsk, hdb, dispatchCore_guard db cfg sid now resolved promptError
              false _ hguard]
  | some t =>
    simp only [hpt]
    by_cases httl : now - t.atMs > TRIGGER_TTL_MS
    · simp only [if_pos httl]
      by_cases hif : st.inFlight
      · simp [hif]
      · by_cases hms : st.manualStop.isSome
        · simp [hif, hms]
        · by_cases hsk : st.skipNextAuto
          · simp [hif, hms, hsk]
          · by_cases hdb : ((source == "session.idle" || source == "session.status") &&
                (match st.lastIdleAt with
                 | some lastIdle => decide (now - lastIdle < IDLE_DEBOUNCE_MS)
                 | Option.none => false)) = true
            · simp [hif, hms, hsk, hdb]
            · simp [hif, hms, hsk, hdb, dispatchCore_guard db cfg sid now resolved promptError
                false _ hguard]
    · simp only [if_neg httl]
      by_cases hif : st.inFlight
      · simp [hif]
      · by_cases hms : st.manualStop.isSome
        · simp [hif, hms]
        · by_cases hsk : st.skipNextAuto
          · simp [hif, hms, hsk]
          · simp [hif, hms, hsk, dispatchCore_guard db cfg sid now resolved promptError
              t.force _ hguard]

/-- C9 counterexample: an invocation with no active plan (the claim's first
antecedent) that is skipped by the in-flight guard never prompts, but leaves
the wait timer set — refuting "the invocation clears the wait timer". -/
theorem C9_counterexample :
    getActivePlan DB.empty "s" = Option.none ∧
    (handleSessionIdle DB.empty ⟨true, 2, [1000]⟩ "s" "session.idle" 0
      (ResolvedContext.ctx false true) Option.none
      ⟨true, false, Option.none, Option.none, Option.none, Option.none,
       Option.none, Option.none, some 99⟩).promptSent = false ∧
    (handleSessionIdle DB.empty ⟨true, 2, [1000]⟩ "s" "session.idle" 0
      (ResolvedContext.ctx false true) Option.none
      ⟨true, false, Option.none, Option.none, Option.none, Option.none,
       Option.none, Option.none, some 99⟩).state.waitTimerAt = some 99 := by decide

/-- Witness for C9: a clean session state (no early guard fires) over an
empty database; the invocation does not prompt, clears the wait timer,
drops the trigger, and stops at the no-active-plan return point. -/
theorem C9_witness :
    earlyGuardFires "session.idle" 5000
      ⟨false, false, Option.none, Option.none, Option.none, Option.none,
       Option.none, Option.none, some 42⟩ = false ∧
    ((handleSessionIdle DB.empty ⟨true, 2, [1000]⟩ "s" "session.idle" 5000
        (ResolvedContext.ctx false true) Option.none
        ⟨false, false, Option.none, Option.none, Option.none, Option.none,
         Option.none, Option.none, some 42⟩).promptSent = false ∧
     (earlyGuardFires "session.idle" 5000
        ⟨false, false, Option.none, Option.none, Option.none, Option.none,
         Option.none, Option.none, some 42⟩ = false →
      (handleSessionIdle DB.empty ⟨true, 2, [1000]⟩ "s" "session.idle" 5000
        (ResolvedContext.ctx false true) Option.none
        ⟨false, false, Option.none, Option.none, Option.none, Option.none,
         Option.none, Option.none, some 42⟩).state.waitTimerAt = Option.none ∧
      (handleSessionIdle DB.empty ⟨true, 2, [1000]⟩ "s" "session.idle" 5000
        (ResolvedContext.ctx false true) Option.none
        ⟨false, false, Option.none, Option.none, Option.none, Option.none,
         Option.none, Option.none, some 42⟩).state.pendingTrigger = Option.none ∧
      ((handleSessionIdle DB.empty ⟨true, 2, [1000]⟩ "s" "session.idle" 5000
          (ResolvedContext.ctx false true) Option.none
          ⟨false, false, Option.none, Option.none, Option.none, Option.none,
           Option.none, Option.none, some 42⟩).outcome = DispatchOutcome.stopNoActivePlan ∨
       (handleSessionIdle DB.empty ⟨true, 2, [1000]⟩ "s" "session.idle" 5000
          (ResolvedContext.ctx false true) Option.none
          ⟨false, false, Option.none, Option.none, Option.none, Option.none,
           Option.none, Option.none, some 42⟩).outcome = DispatchOutcome.stopNoPendingStep ∨
       (handleSessionIdle DB.empty ⟨true, 2, [1000]⟩ "s" "session.idle" 5000
          (ResolvedContext.ctx false true) Option.none
          ⟨false, false, Option.none, Option.none, Option.none, Option.none,
           Option.none, Option.none, some 42⟩).outcome = DispatchOutcome.stopExecutorNotAi))) :=
  ⟨by decide, C9_dispatch_guard DB.empty ⟨true, 2, [1000]⟩ "s" "session.idle" 5000
    (ResolvedContext.ctx false true) Option.none
    ⟨false, false, Option.none, Option.none, Option.none, Option.none,
     Option.none, Option.none, some 42⟩ (Or.inl (by decide))⟩



/-! ## Lemmas: step ordering and structural preservation (C2) -/

theorem orderInv_iff (db : DB) : orderInv db ↔ ∀ p ∈ db.plans, sortsOk db p.id :=
  Iff.rfl


theorem natSeq_length (a n : Nat) : (natSeq a n).length = n := by
  induction n generalizing a with
  | zero => rfl
  | succ m ih => simp [natSeq, ih]

theorem natSeq_append (a m n : Nat) :
    natSeq a (m + n) = natSeq a m ++ natSeq (a + m) n := by
  induction m generalizing a with
  | zero => simp [natSeq]
  | succ k ih =>
    have : a + (k + 1) = (a + 1) + k := by omega
    simp only [natSeq, Nat.succ_add, this, ih (a + 1)]
    simp [List.cons_append]

theorem mem_natSeq (x a n : Nat) : x ∈ natSeq a n ↔ a ≤ x ∧ x < a + n := by
  induction n generalizing a with
  | zero => simp [natSeq]
  | succ m ih =>
    simp only [natSeq, List.mem_cons, ih (a + 1)]
    omega

theorem natSeq_map_add (a n k : Nat) :
    (natSeq a n).map (fun x => x + k) = natSeq (a + k) n := by
  induction n generalizing a with
  | zero => rfl
  | succ m ih =>
    simp only [natSeq, List.map_cons, ih (a + 1)]
    have : a + 1 + k = a + k + 1 := by omega
    rw [this]

theorem natSeq_nodup (a n : Nat) : (natSeq a n).Nodup := by
  induction n generalizing a with
  | zero => exact List.nodup_nil
  | succ m ih =>
    refine List.nodup_cons.mpr ⟨?_, ih (a + 1)⟩
    rw [mem_natSeq]
    omega

theorem renumberFrom_map_sort (n : Nat) (l : List StepR) :
    (renumberFrom n l).map (fun s => s.sort_order) = natSeq n l.length := by
  induction l generalizing n with
  | nil => rfl
  | cons s rest ih => simp [renumberFrom, natSeq, ih]

theorem renumberFrom_map_id (n : Nat) (l : List StepR) :
    (renumberFrom n l).map (fun s => s.id) = l.map (fun s => s.id) := by
  induction l generalizing n with
  | nil => rfl
  | cons s rest ih => simp [renumberFrom, ih]

theorem renumberFrom_length (n : Nat) (l : List StepR) :
    (renumberFrom n l).length = l.length := by
  induction l generalizing n with
  | nil => rfl
  | cons s rest ih => simp [renumberFrom, ih]

theorem mem_renumberFrom (s : StepR) (l : List StepR) :
    ∀ n, s ∈ renumberFrom n l →
      ∃ t ∈ l, s.id = t.id ∧ s.plan_id = t.plan_id ∧ s.status = t.status := by
  induction l with
  | nil => intro n h; cases h
  | cons t rest ih =>
    intro n h
    rcases List.mem_cons.mp h with rfl | h
    · exact ⟨t, List.mem_cons_self t rest, rfl, rfl, rfl⟩
    · obtain ⟨u, hu, he⟩ := ih (n + 1) h
      exact ⟨u, List.mem_cons_of_mem t hu, he⟩

theorem insertNewSteps_map_sort (planId : Nat) (st : Status) (ex : Executor)
    (cs : List String) (pos nid : Nat) :
    (insertNewSteps planId st ex cs pos nid).map (fun s => s.sort_order)
      = natSeq pos cs.length := by
  induction cs generalizing pos nid with
  | nil => rfl
  | cons c rest ih => simp [insertNewSteps, natSeq, ih]

theorem insertNewSteps_map_id (planId : Nat) (st : Status) (ex : Executor)
    (cs : List String) (pos nid : Nat) :
    (insertNewSteps planId st ex cs pos nid).map (fun s => s.id)
      = natSeq nid cs.length := by
  induction cs generalizing pos nid with
  | nil => rfl
  | cons c rest ih => simp [insertNewSteps, natSeq, ih]

theorem insertNewSteps_length (planId : Nat) (st : Status) (ex : Executor)
    (cs : List String) (pos nid : Nat) :
    (insertNewSteps planId st ex cs pos nid).length = cs.length := by
  induction cs generalizing pos nid with
  | nil => rfl
  | cons c rest ih => simp [insertNewSteps, ih]

theorem mem_insertNewSteps (s : StepR) (planId : Nat) (st : Status) (ex : Executor)
    (cs : List String) :
    ∀ pos nid, s ∈ insertNewSteps planId st ex cs pos nid →
      s.plan_id = planId ∧ s.status = st := by
  induction cs with
  | nil => intro pos nid h; cases h
  | cons c rest ih =>
    intro pos nid h
    rcases List.mem_cons.mp h with rfl | h
    · exact ⟨rfl, rfl⟩
    · exact ih (pos + 1) (nid + 1) h

theorem insertNewGoals_map_id (stepId : Nat) (st : Status)
    (cs : List String) (nid : Nat) :
    (insertNewGoals stepId st cs nid).map (fun g => g.id) = natSeq nid cs.length := by
  induction cs generalizing nid with
  | nil => rfl
  | cons c rest ih => simp [insertNewGoals, natSeq, ih]

theorem mem_insertNewGoals (g : GoalR) (stepId : Nat) (st : Status)
    (cs : List String) :
    ∀ nid, g ∈ insertNewGoals stepId st cs nid →
      g.step_id = stepId ∧ g.status = st := by
  induction cs with
  | nil => intro nid h; cases h
  | cons c rest ih =>
    intro nid h
    rcases List.mem_cons.mp h with rfl | h
    · exact ⟨rfl, rfl⟩
    · exact ih (nid + 1) h


theorem mem_stepsOfPlan (s : StepR) (db : DB) (p : Nat) (h : s ∈ stepsOfPlan db p) :
    s ∈ db.steps ∧ s.plan_id = p := by
  unfold stepsOfPlan at h
  have h2 := List.mem_filter.mp ((sortSteps_perm _).mem_iff.mp h)
  exact ⟨h2.1, by simpa using h2.2⟩

theorem stepsOfPlan_perm (db : DB) (p : Nat) :
    List.Perm (stepsOfPlan db p) (stepsFor db p) :=
  sortSteps_perm _

theorem filter_planId_split (l : List StepR) (planId : Nat) (ns : List StepR)
    (h : ∀ s ∈ ns, s.plan_id = planId) (q : Nat) :
    (l.filter (fun s => s.plan_id != planId) ++ ns).filter (fun s => s.plan_id == q)
      = if q = planId then ns else l.filter (fun s => s.plan_id == q) := by
  rw [List.filter_append]
  by_cases hq : q = planId
  · subst hq
    rw [if_pos rfl]
    have h1 : (l.filter (fun s => s.plan_id != q)).filter (fun s => s.plan_id == q) = [] := by
      rw [List.filter_eq_nil_iff]
      intro s hs
      have := (List.mem_filter.mp hs).2
      simp only [bne_iff_ne, ne_eq] at this
      simp [this]
    have h2 : ns.filter (fun s => s.plan_id == q) = ns :=
      List.filter_eq_self.mpr (fun s hs => by simp [h s hs])
    rw [h1, h2, List.nil_append]
  · rw [if_neg hq]
    have h2 : ns.filter (fun s => s.plan_id == q) = [] := by
      rw [List.filter_eq_nil_iff]
      intro s hs
      rw [h s hs]
      simp [Ne.symm hq]
    rw [h2, List.append_nil, List.filter_filter]
    apply List.filter_congr
    intro s _
    by_cases hs : s.plan_id = q
    · have hsp : s.plan_id ≠ planId := by rw [hs]; exact hq
      simp [hs, hsp, hq]
    · simp [hs]

theorem normalizeSteps_stepsFor (db : DB) (planId q : Nat) :
    stepsFor (normalizeSteps db planId) q =
      if q = planId then renumberFrom 1 (stepsOfPlan db planId)
      else stepsFor db q := by
  show (db.steps.filter (fun s => s.plan_id != planId)
      ++ renumberFrom 1 (stepsOfPlan db planId)).filter (fun s => s.plan_id == q) = _
  have hns : ∀ s ∈ renumberFrom 1 (stepsOfPlan db planId), s.plan_id = planId := by
    intro s hs
    obtain ⟨t, ht, _, hp, _⟩ := mem_renumberFrom s _ 1 hs
    rw [hp]
    exact (mem_stepsOfPlan t db planId ht).2
  rw [filter_planId_split db.steps planId _ hns q]
  unfold stepsFor
  rfl

theorem sortsOk_normalizeSteps_self (db : DB) (planId : Nat) :
    sortsOk (normalizeSteps db planId) planId := by
  unfold sortsOk
  rw [normalizeSteps_stepsFor, if_pos rfl, renumberFrom_map_sort, renumberFrom_length]

theorem sortsOk_normalizeSteps_other (db : DB) (planId q : Nat) (hq : q ≠ planId)
    (h : sortsOk db q) : sortsOk (normalizeSteps db planId) q := by
  unfold sortsOk
  rw [normalizeSteps_stepsFor, if_neg hq]
  exact h

theorem sortsOk_normalizePlans (l : List Nat) :
    ∀ db q, (q ∈ l ∨ sortsOk db q) → sortsOk (normalizePlans db l) q := by
  induction l with
  | nil =>
    intro db q h
    rcases h with h | h
    · cases h
    · exact h
  | cons p rest ih =>
    intro db q h
    show sortsOk (normalizePlans (normalizeSteps db p) rest) q
    apply ih
    by_cases hqr : q ∈ rest
    · exact Or.inl hqr
    · right
      by_cases hqp : q = p
      · subst hqp
        exact sortsOk_normalizeSteps_self db q
      · refine sortsOk_normalizeSteps_other db p q hqp ?_
        rcases h with h | h
        · rcases List.mem_cons.mp h with h | h
          · exact absurd h hqp
          · exact absurd h hqr
        · exact h

theorem filter_ne_append_eq_perm (l : List StepR) (planId : Nat) :
    List.Perm (l.filter (fun s => s.plan_id != planId)
      ++ l.filter (fun s => s.plan_id == planId)) l := by
  have h := List.filter_append_perm (fun s => s.plan_id != planId) l
  have he : (fun (s : StepR) => !(s.plan_id != planId)) = (fun s => s.plan_id == planId) := by
    funext s
    simp [bne]
  rw [he] at h
  exact h

theorem normalizeSteps_map_id_perm (db : DB) (planId : Nat) :
    List.Perm ((normalizeSteps db planId).steps.map (fun s => s.id))
      (db.steps.map (fun s => s.id)) := by
  show List.Perm ((db.steps.filter (fun s => s.plan_id != planId)
      ++ renumberFrom 1 (stepsOfPlan db planId)).map (fun s => s.id)) _
  rw [List.map_append, renumberFrom_map_id]
  have h1 : List.Perm ((stepsOfPlan db planId).map (fun s => s.id))
      ((db.steps.filter (fun s => s.plan_id == planId)).map (fun s => s.id)) :=
    List.Perm.map _ (stepsOfPlan_perm db planId)
  refine List.Perm.trans (List.Perm.append_left _ h1) ?_
  rw [← List.map_append]
  exact List.Perm.map _ (filter_ne_append_eq_perm db.steps planId)

theorem normalizeSteps_mem (s : StepR) (db : DB) (planId : Nat)
    (h : s ∈ (normalizeSteps db planId).steps) :
    ∃ t ∈ db.steps, s.id = t.id ∧ s.plan_id = t.plan_id ∧ s.status = t.status := by
  rcases List.mem_append.mp h with h | h
  · exact ⟨s, (List.mem_filter.mp h).1, rfl, rfl, rfl⟩
  · obtain ⟨t, ht, he⟩ := mem_renumberFrom s _ 1 h
    exact ⟨t, (mem_stepsOfPlan t db planId ht).1, he⟩

theorem insertAt_perm {α : Type} (n : Nat) (a : α) (l : List α) :
    List.Perm (insertAt n a l) (a :: l) := by
  induction l generalizing n with
  | nil => cases n <;> exact List.Perm.refl _
  | cons b rest ih =>
    cases n with
    | zero => exact List.Perm.refl _
    | succ m =>
      exact List.Perm.trans (List.Perm.cons b (ih m)) (List.Perm.swap a b rest)



theorem orderInv_congr (db db' : DB) (hsteps : db'.steps = db.steps)
    (hplans : db'.plans.map (fun p => p.id) = db.plans.map (fun p => p.id))
    (h : orderInv db) : orderInv db' := by
  intro p hp
  have hsf : ∀ x, stepsFor db' x = stepsFor db x := by
    intro x
    unfold stepsFor
    rw [hsteps]
  rw [hsf]
  have hid : p.id ∈ db.plans.map (fun r => r.id) := by
    rw [← hplans]
    exact List.mem_map_of_mem _ hp
  obtain ⟨q, hq, hqe⟩ := List.mem_map.mp hid
  have hq2 := h q hq
  rw [hqe] at hq2
  exact hq2

theorem WF_congr (db db' : DB)
    (hplans : db'.plans.map (fun p => p.id) = db.plans.map (fun p => p.id))
    (hsteps : db'.steps = db.steps) (hgoals : db'.goals = db.goals)
    (hc1 : db'.nextPlanId = db.nextPlanId) (hc2 : db'.nextStepId = db.nextStepId)
    (hc3 : db'.nextGoalId = db.nextGoalId) (h : WF db) : WF db' := by
  obtain ⟨h1, h2, h3, h4, h5, h6, h7⟩ := h
  refine ⟨?_, ?_, ?_, ?_, ?_, ?_, ?_⟩
  · rw [hplans]; exact h1
  · rw [hsteps]; exact h2
  · rw [hgoals]; exact h3
  · intro p hp
    rw [hc1]
    have hid : p.id ∈ db.plans.map (fun r => r.id) := by
      rw [← hplans]
      exact List.mem_map_of_mem _ hp
    obtain ⟨q, hq, hqe⟩ := List.mem_map.mp hid
    rw [← hqe]
    exact h4 q hq
  · intro s hs
    rw [hsteps] at hs
    rw [hc2]
    exact h5 s hs
  · intro g hg
    rw [hgoals] at hg
    rw [hc3]
    exact h6 g hg
  · intro s hs
    rw [hsteps] at hs
    obtain ⟨p, hp, hpe⟩ := h7 s hs
    have hid : p.id ∈ db'.plans.map (fun r => r.id) := by
      rw [hplans]
      exact List.mem_map_of_mem _ hp
    obtain ⟨p2, hp2, hpe2⟩ := List.mem_map.mp hid
    exact ⟨p2, hp2, hpe2.trans hpe⟩

theorem WF_steps_replace (db : DB) (ns : List StepR)
    (hperm : List.Perm (ns.map (fun s => s.id)) (db.steps.map (fun s => s.id)))
    (hmem : ∀ s ∈ ns, ∃ t ∈ db.steps, s.id = t.id ∧ s.plan_id = t.plan_id)
    (h : WF db) : WF { db with steps := ns } := by
  obtain ⟨h1, h2, h3, h4, h5, h6, h7⟩ := h
  refine ⟨h1, ?_, h3, h4, ?_, h6, ?_⟩
  · exact hperm.nodup_iff.mpr h2
  · intro s hs
    obtain ⟨t, ht, hid, _⟩ := hmem s hs
    rw [hid]
    exact h5 t ht
  · intro s hs
    obtain ⟨t, ht, _, hpl⟩ := hmem s hs
    obtain ⟨p, hp, hpe⟩ := h7 t ht
    exact ⟨p, hp, by rw [hpe, hpl]⟩

theorem touchPlan_ok (db db' : DB) (p : Nat) (h : touchPlan db p = .ok db') :
    db' = db := by
  unfold touchPlan at h
  split at h
  · exact (Except.ok.inj h).symm
  · cases h

theorem touchPlans_ok (l : List Nat) :
    ∀ db db', touchPlans db l = .ok db' → db' = db := by
  induction l with
  | nil =>
    intro db db' h
    exact (Except.ok.inj h).symm
  | cons p rest ih =>
    intro db db' h
    unfold touchPlans at h
    simp only [Bind.bind, Except.bind] at h
    cases ht : touchPlan db p with
    | error e => rw [ht] at h; cases h
    | ok db₁ =>
      rw [ht] at h
      rw [ih db₁ db' h]
      exact touchPlan_ok db db₁ p ht

theorem refreshPlanStatus_shape (sid : String) (planId : Nat) (db : DB)
    (c : StatusChanges) (db' : DB)
    (h : refreshPlanStatus sid planId db = .ok (c, db')) :
    db'.plans.map (fun p => p.id) = db.plans.map (fun p => p.id) ∧
    db'.steps = db.steps ∧ db'.goals = db.goals ∧
    db'.nextPlanId = db.nextPlanId ∧ db'.nextStepId = db.nextStepId ∧
    db'.nextGoalId = db.nextGoalId := by
  by_cases h0 : countStepsOfPlan db planId = 0
  · rw [refreshPlanStatus_empty sid planId db h0] at h
    cases h
    exact ⟨rfl, rfl, rfl, rfl, rfl, rfl⟩
  · cases hfind : db.plans.find? (fun p => p.id == planId) with
    | none =>
      unfold refreshPlanStatus at h
      rw [if_neg (by simpa using h0)] at h
      simp only [getPlan, hfind] at h
      cases h
    | some plan =>
      by_cases hsame : plan.status = derivedPlanStatus db planId
      · rw [refreshPlanStatus_same sid planId db plan h0 hfind hsame] at h
        cases h
        exact ⟨rfl, rfl, rfl, rfl, rfl, rfl⟩
      · obtain ⟨r, hr⟩ := refreshPlanStatus_update sid planId db plan h0 hfind hsame
        rw [hr] at h
        cases h
        refine ⟨setPlanStatus_map_id db.plans planId _, rfl, rfl, rfl, rfl, rfl⟩

theorem refreshPlans_shape (l : List Nat) :
    ∀ (sid : String) (db : DB) (c : StatusChanges) (db' : DB),
      refreshPlans sid l db = .ok (c, db') →
      db'.plans.map (fun p => p.id) = db.plans.map (fun p => p.id) ∧
      db'.steps = db.steps ∧ db'.goals = db.goals ∧
      db'.nextPlanId = db.nextPlanId ∧ db'.nextStepId = db.nextStepId ∧
      db'.nextGoalId = db.nextGoalId := by
  induction l with
  | nil =>
    intro sid db c db' h
    unfold refreshPlans at h
    cases h
    exact ⟨rfl, rfl, rfl, rfl, rfl, rfl⟩
  | cons p rest ih =>
    intro sid db c db' h
    unfold refreshPlans at h
    simp only [Bind.bind, Except.bind] at h
    cases h1 : refreshPlanStatus sid p db with
    | error e => rw [h1] at h; cases h
    | ok pair =>
      rw [h1] at h
      obtain ⟨c₁, db₁⟩ := pair
      simp only at h
      cases h2 : refreshPlans sid rest db₁ with
      | error e => rw [h2] at h; cases h
      | ok pair2 =>
        rw [h2] at h
        obtain ⟨c₂, db₂⟩ := pair2
        simp only [Pure.pure, Except.pure] at h
        cases h
        obtain ⟨a1, a2, a3, a4, a5, a6⟩ := refreshPlanStatus_shape sid p db c₁ db₁ h1
        obtain ⟨b1, b2, b3, b4, b5, b6⟩ := ih sid db₁ c₂ db' h2
        exact ⟨b1.trans a1, b2.trans a2, b3.trans a3, b4.trans a4, b5.trans a5, b6.trans a6⟩



theorem perm_cons_eraseP (l : List StepR) (p : StepR → Bool) (a : StepR)
    (h : l.find? p = some a) : List.Perm l (a :: l.eraseP p) := by
  have hmem : a ∈ l := List.mem_of_find?_eq_some h
  have hpa : p a = true := by simpa using List.find?_some h
  obtain ⟨b, l₁, l₂, hnp, hpb, hl, he⟩ := List.exists_of_eraseP hmem hpa
  have hfb : l.find? p = some b := by
    rw [hl, find?_append_of_forall_not p l₁ (b :: l₂) (fun x hx => by
      simpa using hnp x hx)]
    simp [List.find?, hpb]
  rw [h] at hfb
  cases hfb
  rw [he, hl]
  exact List.perm_middle

theorem rearrange_preserves (db : DB) (planId : Nat) (arranged : List StepR)
    (hperm : List.Perm arranged (stepsFor db planId))
    (hwf : WF db) (hord : orderInv db) :
    WF { db with steps := db.steps.filter (fun s => s.plan_id != planId)
          ++ renumberFrom 1 arranged } ∧
    orderInv { db with steps := db.steps.filter (fun s => s.plan_id != planId)
          ++ renumberFrom 1 arranged } := by
  have hmemA : ∀ s ∈ arranged, s ∈ db.steps ∧ s.plan_id = planId := by
    intro s hs
    have hsf := hperm.subset hs
    have hm := List.mem_filter.mp hsf
    exact ⟨hm.1, by simpa using hm.2⟩
  have hns : ∀ s ∈ renumberFrom 1 arranged, s.plan_id = planId := by
    intro s hs
    obtain ⟨t, ht, _, hp, _⟩ := mem_renumberFrom s _ 1 hs
    rw [hp]
    exact (hmemA t ht).2
  constructor
  · apply WF_steps_replace
    · rw [List.map_append, renumberFrom_map_id]
      have h1 : List.Perm (arranged.map (fun s => s.id))
          ((db.steps.filter (fun s => s.plan_id == planId)).map (fun s => s.id)) :=
        List.Perm.map _ hperm
      refine List.Perm.trans (List.Perm.append_left _ h1) ?_
      rw [← List.map_append]
      exact List.Perm.map _ (filter_ne_append_eq_perm db.steps planId)
    · intro s hs
      rcases List.mem_append.mp hs with hs | hs
      · exact ⟨s, (List.mem_filter.mp hs).1, rfl, rfl⟩
      · obtain ⟨t, ht, hid, hpl, _⟩ := mem_renumberFrom s _ 1 hs
        exact ⟨t, (hmemA t ht).1, hid, hpl⟩
    · exact hwf
  · intro p hp
    show List.Perm (((db.steps.filter (fun s => s.plan_id != planId)
        ++ renumberFrom 1 arranged).filter (fun s => s.plan_id == p.id)).map
          (fun s => s.sort_order))
      (natSeq 1 ((db.steps.filter (fun s => s.plan_id != planId)
        ++ renumberFrom 1 arranged).filter (fun s => s.plan_id == p.id)).length)
    rw [filter_planId_split db.steps planId _ hns p.id]
    by_cases hpq : p.id = planId
    · rw [if_pos hpq, renumberFrom_map_sort, renumberFrom_length]
    · rw [if_neg hpq]
      exact hord p hp

theorem moveStep_preserves (id : Nat) (toPos : Int) (db : DB) (r : List StepR) (db' : DB)
    (h : moveStep id toPos db = .ok (r, db'))
    (hwf : WF db) (hord : orderInv db) : WF db' ∧ orderInv db' := by
  unfold moveStep at h
  simp only [Bind.bind, Except.bind, getStep] at h
  cases hg : db.steps.find? (fun s => s.id == id) with
  | none => rw [hg] at h; cases h
  | some target =>
    rw [hg] at h
    simp only at h
    cases hf : (stepsOfPlan db target.plan_id).find? (fun s => s.id == id) with
    | none => rw [hf] at h; cases h
    | some moving =>
      rw [hf] at h
      simp only [Pure.pure, Except.pure] at h
      cases h
      apply rearrange_preserves db target.plan_id _ ?_ hwf hord
      have h1 : List.Perm (stepsOfPlan db target.plan_id)
          (moving :: (stepsOfPlan db target.plan_id).eraseP (fun s => s.id == id)) :=
        perm_cons_eraseP _ _ _ hf
      split
      all_goals split
      all_goals first
        | exact ((List.perm_append_singleton _ _).trans h1.symm).trans
            (stepsOfPlan_perm db target.plan_id)
        | exact ((insertAt_perm _ _ _).trans h1.symm).trans
            (stepsOfPlan_perm db target.plan_id)



theorem mem_dedupNats (l : List Nat) (x : Nat) : x ∈ dedupNats l ↔ x ∈ l := by
  induction l with
  | nil => simp [dedupNats]
  | cons a rest ih =>
    simp only [dedupNats, List.mem_cons, List.mem_filter]
    constructor
    · rintro (rfl | ⟨hx, _⟩)
      · exact Or.inl rfl
      · exact Or.inr (ih.mp hx)
    · rintro (rfl | hx)
      · exact Or.inl rfl
      · by_cases hxa : x = a
        · exact Or.inl hxa
        · exact Or.inr ⟨ih.mpr hx, by simpa using hxa⟩

theorem WF_steps_goals_filter (db : DB) (ps : StepR → Bool) (pg : GoalR → Bool)
    (h : WF db) :
    WF { db with steps := db.steps.filter ps, goals := db.goals.filter pg } := by
  obtain ⟨h1, h2, h3, h4, h5, h6, h7⟩ := h
  refine ⟨h1, ?_, ?_, h4, ?_, ?_, ?_⟩
  · exact List.Nodup.sublist (List.Sublist.map _ (List.filter_sublist _)) h2
  · exact List.Nodup.sublist (List.Sublist.map _ (List.filter_sublist _)) h3
  · intro s hs
    exact h5 s (List.mem_of_mem_filter hs)
  · intro g hg
    exact h6 g (List.mem_of_mem_filter hg)
  · intro s hs
    exact h7 s (List.mem_of_mem_filter hs)

theorem WF_normalizeSteps (db : DB) (p : Nat) (h : WF db) :
    WF (normalizeSteps db p) := by
  unfold normalizeSteps
  apply WF_steps_replace
  · exact normalizeSteps_map_id_perm db p
  · intro s hs
    obtain ⟨t, ht, hid, hpl, _⟩ := normalizeSteps_mem s db p hs
    exact ⟨t, ht, hid, hpl⟩
  · exact h

theorem WF_normalizePlans (l : List Nat) :
    ∀ db, WF db → WF (normalizePlans db l) := by
  induction l with
  | nil => intro db h; exact h
  | cons p rest ih =>
    intro db h
    exact ih (normalizeSteps db p) (WF_normalizeSteps db p h)

theorem normalizePlans_plans (l : List Nat) :
    ∀ db, (normalizePlans db l).plans = db.plans := by
  induction l with
  | nil => intro db; rfl
  | cons p rest ih => intro db; exact ih (normalizeSteps db p)

theorem deleteSteps_preserves (sid : String) (ids : List Nat) (db : DB)
    (r : Nat × StatusChanges) (db' : DB)
    (h : deleteSteps sid ids db = .ok (r, db'))
    (hwf : WF db) (hord : orderInv db) : WF db' ∧ orderInv db' := by
  unfold deleteSteps at h
  simp only [Bind.bind, Except.bind, Pure.pure, Except.pure] at h
  split at h
  · cases h
    exact ⟨hwf, hord⟩
  · split at h
    · cases h
    · split at h
      · cases h
      · rename_i pair hr
        obtain ⟨c, db₃⟩ := pair
        split at h
        · cases h
        · rename_i dbx htp
          cases h
          -- names for the intermediate stores
          have hwf₁ : WF { db with
              goals := db.goals.filter
                (fun g => !((uniqueIds ids).contains g.step_id)),
              steps := db.steps.filter
                (fun s => !((uniqueIds ids).contains s.id)) } :=
            WF_steps_goals_filter db _ _ hwf
          have hwf₂ : WF (normalizePlans { db with
              goals := db.goals.filter
                (fun g => !((uniqueIds ids).contains g.step_id)),
              steps := db.steps.filter
                (fun s => !((uniqueIds ids).contains s.id)) }
              (dedupNats ((db.steps.filter
                (fun s => (uniqueIds ids).contains s.id)).map (fun s => s.plan_id)))) :=
            WF_normalizePlans _ _ hwf₁
          have hord₂ : orderInv (normalizePlans { db with
              goals := db.goals.filter
                (fun g => !((uniqueIds ids).contains g.step_id)),
              steps := db.steps.filter
                (fun s => !((uniqueIds ids).contains s.id)) }
              (dedupNats ((db.steps.filter
                (fun s => (uniqueIds ids).contains s.id)).map (fun s => s.plan_id)))) := by
            intro p hp
            rw [normalizePlans_plans] at hp
            apply sortsOk_normalizePlans
            by_cases hmem : p.id ∈ dedupNats ((db.steps.filter
                (fun s => (uniqueIds ids).contains s.id)).map (fun s => s.plan_id))
            · exact Or.inl hmem
            · right
              have hkeep : stepsFor { db with
                  goals := db.goals.filter
                    (fun g => !((uniqueIds ids).contains g.step_id)),
                  steps := db.steps.filter
                    (fun s => !((uniqueIds ids).contains s.id)) } p.id
                  = stepsFor db p.id := by
                show (db.steps.filter
                    (fun s => !((uniqueIds ids).contains s.id))).filter
                      (fun s => s.plan_id == p.id) = _
                rw [List.filter_filter]
                apply List.filter_congr
                intro s hs
                by_cases hpq : s.plan_id = p.id
                · have hnotin : s.id ∉ uniqueIds ids := by
                    intro hin
                    apply hmem
                    rw [mem_dedupNats]
                    refine List.mem_map.mpr ⟨s, ?_, hpq⟩
                    refine List.mem_filter.mpr ⟨hs, ?_⟩
                    simpa using hin
                  simp [hpq, hnotin]
                · simp [hpq]
              unfold sortsOk
              rw [hkeep]
              exact hord p hp
          obtain ⟨a1, a2, a3, a4, a5, a6⟩ := refreshPlans_shape _ sid _ c db₃ hr
          have hdb : db' = db₃ := touchPlans_ok _ _ db' htp
          subst hdb
          constructor
          · exact WF_congr _ db' a1 a2 a3 a4 a5 a6 hwf₂
          · exact orderInv_congr _ db' a2 a1 hord₂



theorem filter_map_planId (l : List StepR) (f : StepR → StepR)
    (hf : ∀ s, (f s).plan_id = s.plan_id) (q : Nat) :
    (l.map f).filter (fun s => s.plan_id == q)
      = (l.filter (fun s => s.plan_id == q)).map f := by
  rw [List.filter_map]
  congr 1
  apply List.filter_congr
  intro s _
  simp [Function.comp, hf s]

theorem map_sort_shift (l : List StepR) (planId pos k : Nat)
    (hl : ∀ s ∈ l, s.plan_id = planId) :
    (l.map (fun s => if s.plan_id == planId && pos ≤ s.sort_order
        then { s with sort_order := s.sort_order + k } else s)).map (fun s => s.sort_order)
      = (l.map (fun s => s.sort_order)).map (fun x => if pos ≤ x then x + k else x) := by
  induction l with
  | nil => rfl
  | cons s rest ih =>
    simp only [List.map_cons]
    have hp : (s.plan_id == planId) = true := by
      simp [hl s (List.mem_cons_self s rest)]
    congr 1
    · by_cases hle : pos ≤ s.sort_order
      · rw [if_pos hle]
        have hc : (s.plan_id == planId && decide (pos ≤ s.sort_order)) = true := by
          simp [hp, hle]
        rw [if_pos hc]
      · rw [if_neg hle]
        have hc : (s.plan_id == planId && decide (pos ≤ s.sort_order)) = false := by
          simp [hle]
        rw [if_neg (by simp [hc])]
    · exact ih (fun t ht => hl t (List.mem_cons_of_mem s ht))

theorem natSeq_shift_insert (total pos k : Nat) (h1 : 1 ≤ pos) (h2 : pos ≤ total + 1) :
    List.Perm ((natSeq 1 total).map (fun x => if pos ≤ x then x + k else x) ++ natSeq pos k)
      (natSeq 1 (total + k)) := by
  obtain ⟨m, rfl⟩ : ∃ m, pos = m + 1 := ⟨pos - 1, by omega⟩
  obtain ⟨r, rfl⟩ : ∃ r, total = m + r := ⟨total - m, by omega⟩
  rw [natSeq_append 1 m r, List.map_append]
  have hlow : (natSeq 1 m).map (fun x => if m + 1 ≤ x then x + k else x) = natSeq 1 m := by
    have hcg : ∀ x ∈ natSeq 1 m, (if m + 1 ≤ x then x + k else x) = x := by
      intro x hx
      rw [mem_natSeq] at hx
      rw [if_neg (by omega)]
    rw [List.map_congr_left hcg]
    exact List.map_id _
  have hhigh : (natSeq (1 + m) r).map (fun x => if m + 1 ≤ x then x + k else x)
      = natSeq (1 + m + k) r := by
    have hcg : ∀ x ∈ natSeq (1 + m) r, (if m + 1 ≤ x then x + k else x) = x + k := by
      intro x hx
      rw [mem_natSeq] at hx
      rw [if_pos (by omega)]
    rw [List.map_congr_left hcg, natSeq_map_add]
  rw [hlow, hhigh]
  have he : m + r + k = m + (k + r) := by omega
  rw [he, natSeq_append 1 m (k + r), natSeq_append (1 + m) k r, List.append_assoc]
  apply List.Perm.append_left
  have hmk : m + 1 = 1 + m := by omega
  rw [hmk]
  exact List.perm_append_comm

theorem map_id_map_shift (l : List StepR) (planId pos k : Nat) :
    (l.map (fun s => if s.plan_id == planId && pos ≤ s.sort_order
        then { s with sort_order := s.sort_order + k } else s)).map (fun s => s.id)
      = l.map (fun s => s.id) := by
  rw [List.map_map]
  apply List.map_congr_left
  intro s _
  simp only [Function.comp]
  split <;> rfl

theorem shift_fun_plan_id (planId pos k : Nat) (s : StepR) :
    ((fun s => if s.plan_id == planId && pos ≤ s.sort_order
        then { s with sort_order := s.sort_order + k } else s) s).plan_id = s.plan_id := by
  dsimp only
  split <;> rfl



theorem addSteps_core_preserves (db : DB) (planId : Nat) (contents : List String)
    (status : Status) (executor : Executor) (insertPos : Nat)
    (hplan : db.plans.any (fun p => p.id == planId) = true)
    (hp1 : 1 ≤ insertPos) (hp2 : insertPos ≤ (stepsOfPlan db planId).length + 1)
    (hwf : WF db) (hord : orderInv db) :
    WF { db with
          steps := ((normalizeSteps db planId).steps.map
              (fun s => if s.plan_id == planId && insertPos ≤ s.sort_order
                then { s with sort_order := s.sort_order + contents.length } else s))
            ++ insertNewSteps planId status executor contents insertPos db.nextStepId,
          nextStepId := db.nextStepId + contents.length } ∧
    orderInv { db with
          steps := ((normalizeSteps db planId).steps.map
              (fun s => if s.plan_id == planId && insertPos ≤ s.sort_order
                then { s with sort_order := s.sort_order + contents.length } else s))
            ++ insertNewSteps planId status executor contents insertPos db.nextStepId,
          nextStepId := db.nextStepId + contents.length } := by
  obtain ⟨w1, w2, w3, w4, w5, w6, w7⟩ := hwf
  have hIdEq : (((normalizeSteps db planId).steps.map
      (fun s => if s.plan_id == planId && insertPos ≤ s.sort_order
        then { s with sort_order := s.sort_order + contents.length } else s))
      ++ insertNewSteps planId status executor contents insertPos db.nextStepId).map
        (fun s => s.id)
      = (normalizeSteps db planId).steps.map (fun s => s.id)
        ++ natSeq db.nextStepId contents.length := by
    rw [List.map_append, map_id_map_shift, insertNewSteps_map_id]
  have hOldLt : ∀ x ∈ (normalizeSteps db planId).steps.map (fun s => s.id),
      x < db.nextStepId := by
    intro x hx
    have hx2 := (normalizeSteps_map_id_perm db planId).mem_iff.mp hx
    obtain ⟨s, hs, rfl⟩ := List.mem_map.mp hx2
    exact w5 s hs
  have hPlanEx : ∃ p ∈ db.plans, p.id = planId := by
    obtain ⟨p, hp, hpe⟩ := List.any_eq_true.mp hplan
    exact ⟨p, hp, by simpa using hpe⟩
  constructor
  · refine ⟨w1, ?_, w3, w4, ?_, ?_, ?_⟩
    · rw [hIdEq]
      apply List.Nodup.append
      · exact ((normalizeSteps_map_id_perm db planId).nodup_iff).mpr w2
      · exact natSeq_nodup _ _
      · intro x hx1 hx2
        have hlt := hOldLt x hx1
        rw [mem_natSeq] at hx2
        omega
    · intro s hs
      dsimp only at hs ⊢
      rcases List.mem_append.mp hs with hs | hs
      · obtain ⟨t, ht, rfl⟩ := List.mem_map.mp hs
        have hid : ((fun s => if s.plan_id == planId && insertPos ≤ s.sort_order
            then { s with sort_order := s.sort_order + contents.length } else s) t).id
            = t.id := by
          dsimp only
          split <;> rfl
        rw [hid]
        obtain ⟨u, hu, hie, _⟩ := normalizeSteps_mem t db planId ht
        rw [hie]
        have := w5 u hu
        omega
      · have hsid : s.id ∈ natSeq db.nextStepId contents.length := by
          rw [← insertNewSteps_map_id planId status executor contents insertPos db.nextStepId]
          exact List.mem_map_of_mem _ hs
        rw [mem_natSeq] at hsid
        omega
    · intro g hg
      exact w6 g hg
    · intro s hs
      rcases List.mem_append.mp hs with hs | hs
      · obtain ⟨t, ht, rfl⟩ := List.mem_map.mp hs
        have hpl : ((fun s => if s.plan_id == planId && insertPos ≤ s.sort_order
            then { s with sort_order := s.sort_order + contents.length } else s) t).plan_id
            = t.plan_id := shift_fun_plan_id planId insertPos contents.length t
        rw [hpl]
        obtain ⟨u, hu, _, hpe, _⟩ := normalizeSteps_mem t db planId ht
        rw [hpe]
        exact w7 u hu
      · have := (mem_insertNewSteps s planId status executor contents insertPos db.nextStepId hs).1
        rw [this]
        exact hPlanEx
  · intro p hp
    have hfilter : ∀ q, (((normalizeSteps db planId).steps.map
        (fun s => if s.plan_id == planId && insertPos ≤ s.sort_order
          then { s with sort_order := s.sort_order + contents.length } else s))
        ++ insertNewSteps planId status executor contents insertPos db.nextStepId).filter
          (fun s => s.plan_id == q)
        = (if q = planId then (renumberFrom 1 (stepsOfPlan db planId)).map
              (fun s => if s.plan_id == planId && insertPos ≤ s.sort_order
                then { s with sort_order := s.sort_order + contents.length } else s)
              ++ insertNewSteps planId status executor contents insertPos db.nextStepId
           else stepsFor db q) := by
      intro q
      rw [List.filter_append]
      rw [filter_map_planId _ _ (shift_fun_plan_id planId insertPos contents.length) q]
      have hnf : (normalizeSteps db planId).steps.filter (fun s => s.plan_id == q)
          = stepsFor (normalizeSteps db planId) q := rfl
      rw [hnf, normalizeSteps_stepsFor]
      by_cases hq : q = planId
      · subst hq
        rw [if_pos rfl, if_pos rfl]
        congr 1
        apply List.filter_eq_self.mpr
        intro s hs
        simp [(mem_insertNewSteps s q status executor contents insertPos db.nextStepId hs).1]
      · rw [if_neg hq, if_neg hq]
        have hnil : (insertNewSteps planId status executor contents insertPos
            db.nextStepId).filter (fun s => s.plan_id == q) = [] := by
          rw [List.filter_eq_nil_iff]
          intro s hs
          rw [(mem_insertNewSteps s planId status executor contents insertPos db.nextStepId hs).1]
          simp [Ne.symm hq]
        rw [hnil, List.append_nil]
        have hcgr : (stepsFor db q).map
            (fun s => if s.plan_id == planId && insertPos ≤ s.sort_order
              then { s with sort_order := s.sort_order + contents.length } else s)
            = (stepsFor db q).map (fun s => s) := by
          apply List.map_congr_left
          intro s hs
          have hsq : s.plan_id = q := by simpa using (List.mem_filter.mp hs).2
          have hc : (s.plan_id == planId && decide (insertPos ≤ s.sort_order)) = false := by
            rw [hsq]
            simp [hq]
          rw [if_neg (by simp [hc])]
        rw [hcgr]
        exact List.map_id' _
    have hsfor : ∀ q, stepsFor { db with steps := ((normalizeSteps db planId).steps.map (fun s => if s.plan_id == planId && insertPos ≤ s.sort_order then { s with sort_order := s.sort_order + contents.length } else s)) ++ insertNewSteps planId status executor contents insertPos db.nextStepId, nextStepId := db.nextStepId + contents.length } q = (if q = planId then (renumberFrom 1 (stepsOfPlan db planId)).map (fun s => if s.plan_id == planId && insertPos ≤ s.sort_order then { s with sort_order := s.sort_order + contents.length } else s) ++ insertNewSteps planId status executor contents insertPos db.nextStepId else stepsFor db q) := hfilter
    by_cases hq : p.id = planId
    · rw [hsfor, if_pos hq]
      rw [List.map_append, List.length_append]
      rw [map_sort_shift _ planId insertPos contents.length ?hpl]
      case hpl =>
        intro s hs
        obtain ⟨t, ht, _, hpe, _⟩ := mem_renumberFrom s _ 1 hs
        rw [hpe]
        exact (mem_stepsOfPlan t db planId ht).2
      rw [renumberFrom_map_sort, insertNewSteps_map_sort, insertNewSteps_length,
        List.length_map, renumberFrom_length]
      exact natSeq_shift_insert (stepsOfPlan db planId).length insertPos contents.length hp1 hp2
    · rw [hsfor, if_neg hq]
      exact hord p hp



theorem insertPos_bounds (at? : Option Int) (total : Nat) :
    1 ≤ (match at? with
        | some a => if a > 0 then min a.toNat (total + 1) else 1
        | Option.none => total + 1) ∧
    (match at? with
        | some a => if a > 0 then min a.toNat (total + 1) else 1
        | Option.none => total + 1) ≤ total + 1 := by
  rcases at? with _ | a
  · constructor
    · show 1 ≤ total + 1
      omega
    · show total + 1 ≤ total + 1
      omega
  · constructor
    · show 1 ≤ if a > 0 then min a.toNat (total + 1) else 1
      by_cases ha : a > 0
      · rw [if_pos ha]
        omega
      · rw [if_neg ha]
    · show (if a > 0 then min a.toNat (total + 1) else 1) ≤ total + 1
      by_cases ha : a > 0
      · rw [if_pos ha]
        omega
      · rw [if_neg ha]
        omega

theorem addStepsBatch_preserves (sid : String) (planId : Nat) (contents : List String)
    (status : Status) (executor : Executor) (at? : Option Int) (db : DB)
    (r : List StepR × StatusChanges) (db' : DB)
    (h : addStepsBatch sid planId contents status executor at? db = .ok (r, db'))
    (hwf : WF db) (hord : orderInv db) : WF db' ∧ orderInv db' := by
  unfold addStepsBatch at h
  simp only [Bind.bind, Except.bind, Pure.pure, Except.pure] at h
  split at h
  · simp [throw, throwThe, MonadExceptOf.throw] at h
  · rename_i hganyn
    have hgany : db.plans.any (fun p => p.id == planId) = true := by
      simpa using hganyn
    split at h
    · cases h
      exact ⟨hwf, hord⟩
    · rename_i hce
      cases hens : ensureAllNonEmpty "step content" contents with
      | error e =>
        rw [hens] at h
        simp at h
      | ok u =>
        rw [hens] at h
        split at h
        · rename_i err heq
          cases heq
        · have hclen : contents.length > 0 := by
            cases contents with
            | nil => exact absurd rfl hce
            | cons a as => simp
          rw [if_pos hclen] at h
          split at h
          · cases h
          · rename_i pair href
            obtain ⟨c, db₄⟩ := pair
            split at h
            · cases h
            · rename_i dbx htp
              cases h
              obtain ⟨cwf, cord⟩ := addSteps_core_preserves db planId contents status
                executor _ hgany (insertPos_bounds at? (stepsOfPlan db planId).length).1
                (insertPos_bounds at? (stepsOfPlan db planId).length).2 hwf hord
              obtain ⟨a1, a2, a3, a4, a5, a6⟩ := refreshPlanStatus_shape sid planId _ c db₄ href
              have hdb : db' = db₄ := touchPlan_ok _ db' planId htp
              subst hdb
              constructor
              · exact WF_congr _ db' a1 a2 a3 a4 a5 a6 cwf
              · exact orderInv_congr _ db' a2 a1 cord



theorem addStepTree_core_preserves (db : DB) (planId : Nat) (content : String)
    (executor : Executor) (goals : List String)
    (hplan : db.plans.any (fun p => p.id == planId) = true)
    (hwf : WF db) (hord : orderInv db) :
    WF { db with
          steps := (normalizeSteps db planId).steps
            ++ [⟨db.nextStepId, planId, content, Status.todo, executor,
                  (stepsOfPlan db planId).length + 1, Option.none⟩],
          goals := db.goals
            ++ insertNewGoals db.nextStepId Status.todo goals db.nextGoalId,
          nextStepId := db.nextStepId + 1,
          nextGoalId := db.nextGoalId + goals.length } ∧
    orderInv { db with
          steps := (normalizeSteps db planId).steps
            ++ [⟨db.nextStepId, planId, content, Status.todo, executor,
                  (stepsOfPlan db planId).length + 1, Option.none⟩],
          goals := db.goals
            ++ insertNewGoals db.nextStepId Status.todo goals db.nextGoalId,
          nextStepId := db.nextStepId + 1,
          nextGoalId := db.nextGoalId + goals.length } := by
  obtain ⟨w1, w2, w3, w4, w5, w6, w7⟩ := hwf
  have hPlanEx : ∃ p ∈ db.plans, p.id = planId := by
    obtain ⟨p, hp, hpe⟩ := List.any_eq_true.mp hplan
    exact ⟨p, hp, by simpa using hpe⟩
  constructor
  · refine ⟨w1, ?_, ?_, w4, ?_, ?_, ?_⟩
    · rw [List.map_append]
      apply nodup_snoc
      · exact ((normalizeSteps_map_id_perm db planId).nodup_iff).mpr w2
      · intro hx
        have hx2 := (normalizeSteps_map_id_perm db planId).mem_iff.mp hx
        obtain ⟨s, hs, he⟩ := List.mem_map.mp hx2
        dsimp only at he
        have := w5 s hs
        omega
    · rw [List.map_append, insertNewGoals_map_id]
      apply List.Nodup.append
      · exact w3
      · exact natSeq_nodup _ _
      · intro x hx1 hx2
        obtain ⟨g, hg, rfl⟩ := List.mem_map.mp hx1
        have := w6 g hg
        rw [mem_natSeq] at hx2
        omega
    · intro s hs
      dsimp only at hs ⊢
      rcases List.mem_append.mp hs with hs | hs
      · obtain ⟨t, ht, hie, _⟩ := normalizeSteps_mem s db planId hs
        rw [hie]
        have := w5 t ht
        omega
      · rcases List.mem_singleton.mp hs with rfl
        exact Nat.lt_succ_self db.nextStepId
    · intro g hg
      dsimp only at hg ⊢
      rcases List.mem_append.mp hg with hg | hg
      · have := w6 g hg
        omega
      · have hgid : g.id ∈ natSeq db.nextGoalId goals.length := by
          rw [← insertNewGoals_map_id db.nextStepId Status.todo goals db.nextGoalId]
          exact List.mem_map_of_mem _ hg
        rw [mem_natSeq] at hgid
        omega
    · intro s hs
      dsimp only at hs
      rcases List.mem_append.mp hs with hs | hs
      · obtain ⟨t, ht, _, hpe, _⟩ := normalizeSteps_mem s db planId hs
        rw [hpe]
        exact w7 t ht
      · rcases List.mem_singleton.mp hs with rfl
        exact hPlanEx
  · intro p hp
    have hns : ∀ s ∈ renumberFrom 1 (stepsOfPlan db planId)
        ++ [(⟨db.nextStepId, planId, content, Status.todo, executor,
              (stepsOfPlan db planId).length + 1, Option.none⟩ : StepR)],
        s.plan_id = planId := by
      intro s hs
      rcases List.mem_append.mp hs with hs | hs
      · obtain ⟨t, ht, _, hpe, _⟩ := mem_renumberFrom s _ 1 hs
        rw [hpe]
        exact (mem_stepsOfPlan t db planId ht).2
      · rcases List.mem_singleton.mp hs with rfl
        rfl
    have hsfor : ∀ q, stepsFor { db with
          steps := (normalizeSteps db planId).steps
            ++ [⟨db.nextStepId, planId, content, Status.todo, executor,
                  (stepsOfPlan db planId).length + 1, Option.none⟩],
          goals := db.goals
            ++ insertNewGoals db.nextStepId Status.todo goals db.nextGoalId,
          nextStepId := db.nextStepId + 1,
          nextGoalId := db.nextGoalId + goals.length } q
        = (if q = planId then renumberFrom 1 (stepsOfPlan db planId)
            ++ [⟨db.nextStepId, planId, content, Status.todo, executor,
                  (stepsOfPlan db planId).length + 1, Option.none⟩]
           else stepsFor db q) := by
      intro q
      show (db.steps.filter (fun s => s.plan_id != planId)
          ++ renumberFrom 1 (stepsOfPlan db planId)
          ++ [(⟨db.nextStepId, planId, content, Status.todo, executor,
                (stepsOfPlan db planId).length + 1, Option.none⟩ : StepR)]).filter
            (fun s => s.plan_id == q) = _
      rw [List.append_assoc, filter_planId_split db.steps planId _ hns q]
      unfold stepsFor
      rfl
    by_cases hq : p.id = planId
    · rw [hsfor, if_pos hq, List.map_append, List.length_append, renumberFrom_map_sort,
        renumberFrom_length]
      show List.Perm (natSeq 1 (stepsOfPlan db planId).length
          ++ [(stepsOfPlan db planId).length + 1])
        (natSeq 1 ((stepsOfPlan db planId).length + 1))
      have he : (stepsOfPlan db planId).length + 1
          = (stepsOfPlan db planId).length + 1 := rfl
      rw [natSeq_append 1 (stepsOfPlan db planId).length 1]
      have h1 : natSeq (1 + (stepsOfPlan db planId).length) 1
          = [(stepsOfPlan db planId).length + 1] := by
        show [1 + (stepsOfPlan db planId).length] = _
        congr 1
        omega
      rw [h1]
    · rw [hsfor, if_neg hq]
      exact hord p hp



theorem addStepTree_preserves (sid : String) (planId : Nat) (content : String)
    (executor : Executor) (goals : List String) (db : DB)
    (r : (StepR × List GoalR) × StatusChanges) (db' : DB)
    (h : addStepTree sid planId content executor goals db = .ok (r, db'))
    (hwf : WF db) (hord : orderInv db) : WF db' ∧ orderInv db' := by
  unfold addStepTree at h
  simp only [Bind.bind, Except.bind, Pure.pure, Except.pure] at h
  cases he1 : ensureNonEmpty "step content" content with
  | error e =>
    rw [he1] at h
    simp at h
  | ok u1 =>
    rw [he1] at h
    split at h
    · rename_i err heq
      cases heq
    · cases he2 : ensureAllNonEmpty "goal content" goals with
      | error e =>
        rw [he2] at h
        simp at h
      | ok u2 =>
        rw [he2] at h
        split at h
        · rename_i err heq
          cases heq
        · split at h
          · simp [throw, throwThe, MonadExceptOf.throw] at h
          · rename_i hganyn
            have hgany : db.plans.any (fun p => p.id == planId) = true := by
              simpa using hganyn
            split at h
            · cases h
            · rename_i pair href
              obtain ⟨c, db₄⟩ := pair
              split at h
              · cases h
              · rename_i dbx htp
                cases h
                obtain ⟨cwf, cord⟩ := addStepTree_core_preserves db planId content
                  executor goals hgany hwf hord
                obtain ⟨a1, a2, a3, a4, a5, a6⟩ :=
                  refreshPlanStatus_shape sid planId _ c db₄ href
                have hdb : db' = db₄ := touchPlan_ok _ db' planId htp
                subst hdb
                constructor
                · exact WF_congr _ db' a1 a2 a3 a4 a5 a6 cwf
                · exact orderInv_congr _ db' a2 a1 cord



theorem insertTree_spec (planId : Nat) (sis : List StepInput) :
    ∀ idx db, ∃ ns ngs,
      insertTree planId sis idx db =
        { db with
          steps := db.steps ++ ns,
          goals := db.goals ++ ngs,
          nextStepId := db.nextStepId + sis.length,
          nextGoalId := db.nextGoalId + (sis.map (fun si => si.goals.length)).sum } ∧
      ns.map (fun s => s.sort_order) = natSeq idx sis.length ∧
      ns.map (fun s => s.id) = natSeq db.nextStepId sis.length ∧
      (∀ s ∈ ns, s.plan_id = planId) ∧
      ngs.map (fun g => g.id)
        = natSeq db.nextGoalId ((sis.map (fun si => si.goals.length)).sum) := by
  induction sis with
  | nil =>
    intro idx db
    refine ⟨[], [], ?_, rfl, rfl, by simp, rfl⟩
    show db = _
    simp
  | cons si rest ih =>
    intro idx db
    have hstep : insertTree planId (si :: rest) idx db
        = insertTree planId rest (idx + 1)
          { db with
            steps := db.steps ++ [⟨db.nextStepId, planId, si.content, Status.todo,
              si.executor, idx, Option.none⟩],
            goals := db.goals
              ++ insertNewGoals db.nextStepId Status.todo si.goals db.nextGoalId,
            nextStepId := db.nextStepId + 1,
            nextGoalId := db.nextGoalId + si.goals.length } := rfl
    obtain ⟨ns, ngs, heq, hsort, hid, hpl, hgid⟩ := ih (idx + 1)
      { db with
        steps := db.steps ++ [⟨db.nextStepId, planId, si.content, Status.todo,
          si.executor, idx, Option.none⟩],
        goals := db.goals ++ insertNewGoals db.nextStepId Status.todo si.goals db.nextGoalId,
        nextStepId := db.nextStepId + 1,
        nextGoalId := db.nextGoalId + si.goals.length }
    dsimp only at heq hid hgid
    refine ⟨⟨db.nextStepId, planId, si.content, Status.todo, si.executor, idx,
        Option.none⟩ :: ns,
      insertNewGoals db.nextStepId Status.todo si.goals db.nextGoalId ++ ngs,
      ?_, ?_, ?_, ?_, ?_⟩
    · rw [hstep, heq]
      congr 1
      · simp
      · simp
      · simp only [List.length_cons]
        omega
      · simp only [List.map_cons, List.sum_cons]
        omega
    · simp only [List.map_cons, hsort, List.length_cons]
      rfl
    · simp only [List.map_cons, hid, List.length_cons]
      rfl
    · intro s hs
      rcases List.mem_cons.mp hs with rfl | hs
      · rfl
      · exact hpl s hs
    · rw [List.map_append, insertNewGoals_map_id, hgid]
      simp only [List.map_cons, List.sum_cons]
      rw [← natSeq_append]



theorem addPlanTree_preserves (title content : String) (steps : List StepInput) (db : DB)
    (r : PlanR × Nat × Nat) (db' : DB)
    (h : addPlanTree title content steps db = .ok (r, db'))
    (hwf : WF db) (hord : orderInv db) : WF db' ∧ orderInv db' := by
  unfold addPlanTree at h
  simp only [Bind.bind, Except.bind, Pure.pure, Except.pure] at h
  cases he1 : ensureNonEmpty "plan title" title with
  | error e =>
    rw [he1] at h
    simp at h
  | ok u1 =>
    rw [he1] at h
    split at h
    · rename_i err heq
      cases heq
    · cases he2 : ensureNonEmpty "plan content" content with
      | error e =>
        rw [he2] at h
        simp at h
      | ok u2 =>
        rw [he2] at h
        split at h
        · rename_i err heq
          cases heq
        · cases he3 : validateStepInputs steps with
          | error e =>
            rw [he3] at h
            simp at h
          | ok u3 =>
            rw [he3] at h
            split at h
            · rename_i err heq
              cases heq
            · cases h
              obtain ⟨ns, ngs, heq, hsort, hid, hpl, hgid⟩ :=
                insertTree_spec db.nextPlanId steps 1
                  { db with
                    plans := db.plans ++ [⟨db.nextPlanId, title, content,
                      Status.todo, Option.none⟩],
                    nextPlanId := db.nextPlanId + 1 }
              dsimp only at heq hid hgid
              show WF (insertTree db.nextPlanId steps 1
                  { db with
                    plans := db.plans ++ [⟨db.nextPlanId, title, content,
                      Status.todo, Option.none⟩],
                    nextPlanId := db.nextPlanId + 1 }) ∧
                orderInv (insertTree db.nextPlanId steps 1
                  { db with
                    plans := db.plans ++ [⟨db.nextPlanId, title, content,
                      Status.todo, Option.none⟩],
                    nextPlanId := db.nextPlanId + 1 })
              rw [heq]
              obtain ⟨w1, w2, w3, w4, w5, w6, w7⟩ := hwf
              have hnsid : ∀ s ∈ ns, db.nextStepId ≤ s.id ∧ s.id < db.nextStepId + steps.length := by
                intro s hs
                have : s.id ∈ natSeq db.nextStepId steps.length := by
                  rw [← hid]
                  exact List.mem_map_of_mem _ hs
                rw [mem_natSeq] at this
                omega
              have hngid : ∀ g ∈ ngs, db.nextGoalId ≤ g.id ∧
                  g.id < db.nextGoalId + ((steps.map (fun si => si.goals.length)).sum) := by
                intro g hg
                have : g.id ∈ natSeq db.nextGoalId ((steps.map (fun si => si.goals.length)).sum) := by
                  rw [← hgid]
                  exact List.mem_map_of_mem _ hg
                rw [mem_natSeq] at this
                omega
              constructor
              · refine ⟨?_, ?_, ?_, ?_, ?_, ?_, ?_⟩
                · dsimp only
                  rw [List.map_append]
                  apply nodup_snoc
                  · exact w1
                  · intro hx
                    obtain ⟨p, hp, hpe⟩ := List.mem_map.mp hx
                    dsimp only at hpe
                    have := w4 p hp
                    omega
                · dsimp only
                  rw [List.map_append, hid]
                  apply List.Nodup.append
                  · exact w2
                  · exact natSeq_nodup _ _
                  · intro x hx1 hx2
                    obtain ⟨s, hs, rfl⟩ := List.mem_map.mp hx1
                    have := w5 s hs
                    rw [mem_natSeq] at hx2
                    omega
                · dsimp only
                  rw [List.map_append, hgid]
                  apply List.Nodup.append
                  · exact w3
                  · exact natSeq_nodup _ _
                  · intro x hx1 hx2
                    obtain ⟨g, hg, rfl⟩ := List.mem_map.mp hx1
                    have := w6 g hg
                    rw [mem_natSeq] at hx2
                    omega
                · intro p hp
                  dsimp only at hp ⊢
                  rcases List.mem_append.mp hp with hp | hp
                  · have := w4 p hp
                    omega
                  · rcases List.mem_singleton.mp hp with rfl
                    exact Nat.lt_succ_self db.nextPlanId
                · intro s hs
                  dsimp only at hs ⊢
                  rcases List.mem_append.mp hs with hs | hs
                  · have := w5 s hs
                    omega
                  · exact (hnsid s hs).2
                · intro g hg
                  dsimp only at hg ⊢
                  rcases List.mem_append.mp hg with hg | hg
                  · have := w6 g hg
                    omega
                  · exact (hngid g hg).2
                · intro s hs
                  dsimp only at hs ⊢
                  rcases List.mem_append.mp hs with hs | hs
                  · obtain ⟨p, hp, hpe⟩ := w7 s hs
                    exact ⟨p, List.mem_append_left _ hp, hpe⟩
                  · refine ⟨⟨db.nextPlanId, title, content, Status.todo, Option.none⟩,
                      List.mem_append_right _ (List.mem_singleton_self _), ?_⟩
                    dsimp only
                    exact (hpl s hs).symm
              · intro p hp
                dsimp only at hp
                have hfsplit : ∀ q, (db.steps ++ ns).filter (fun s => s.plan_id == q)
                    = db.steps.filter (fun s => s.plan_id == q)
                      ++ ns.filter (fun s => s.plan_id == q) := by
                  intro q
                  rw [List.filter_append]
                rcases List.mem_append.mp hp with hp | hp
                · have hq : p.id < db.nextPlanId := w4 p hp
                  have hnil : ns.filter (fun s => s.plan_id == p.id) = [] := by
                    rw [List.filter_eq_nil_iff]
                    intro s hs
                    rw [hpl s hs]
                    simp
                    omega
                  show List.Perm (((db.steps ++ ns).filter
                      (fun s => s.plan_id == p.id)).map (fun s => s.sort_order))
                    (natSeq 1 ((db.steps ++ ns).filter (fun s => s.plan_id == p.id)).length)
                  rw [hfsplit, hnil, List.append_nil]
                  exact hord p hp
                · rcases List.mem_singleton.mp hp with rfl
                  have hnil : db.steps.filter
                      (fun s => s.plan_id ==
                        (⟨db.nextPlanId, title, content, Status.todo,
                          Option.none⟩ : PlanR).id) = [] := by
                    rw [List.filter_eq_nil_iff]
                    intro s hs
                    obtain ⟨p0, hp0, hpe⟩ := w7 s hs
                    have := w4 p0 hp0
                    simp
                    omega
                  show List.Perm (((db.steps ++ ns).filter
                      (fun s => s.plan_id ==
                        (⟨db.nextPlanId, title, content, Status.todo,
                          Option.none⟩ : PlanR).id)).map (fun s => s.sort_order))
                    (natSeq 1 ((db.steps ++ ns).filter
                      (fun s => s.plan_id ==
                        (⟨db.nextPlanId, title, content, Status.todo,
                          Option.none⟩ : PlanR).id)).length)
                  rw [hfsplit, hnil, List.nil_append]
                  have hall : ns.filter (fun s => s.plan_id ==
                      (⟨db.nextPlanId, title, content, Status.todo,
                        Option.none⟩ : PlanR).id) = ns := by
                    apply List.filter_eq_self.mpr
                    intro s hs
                    rw [hpl s hs]
                    simp
                  rw [hall, hsort]
                  have hlen : ns.length = steps.length := by
                    have := congrArg List.length hid
                    rw [List.length_map, natSeq_length] at this
                    exact this
                  rw [hlen]


theorem structureOp_preserves (db : DB) (op : EngineOp) (hop : isStepStructureOp op)
    (hwf : WF db) (hord : orderInv db) :
    WF (applyOp db op) ∧ orderInv (applyOp db op) := by
  cases op with
  | addPlan t c => exact hop.elim
  | addPlanTree t c steps =>
    show WF (commit db (addPlanTree t c steps db)) ∧ orderInv (commit db (addPlanTree t c steps db))
    cases hres : addPlanTree t c steps db with
    | error e =>
      exact ⟨hwf, hord⟩
    | ok pair =>
      obtain ⟨r, db2⟩ := pair
      exact addPlanTree_preserves t c steps db r db2 hres hwf hord
  | addStepsBatch sid p cs st ex at? =>
    show WF (commit db (addStepsBatch sid p cs st ex at? db)) ∧ orderInv (commit db (addStepsBatch sid p cs st ex at? db))
    cases hres : addStepsBatch sid p cs st ex at? db with
    | error e =>
      exact ⟨hwf, hord⟩
    | ok pair =>
      obtain ⟨r, db2⟩ := pair
      exact addStepsBatch_preserves sid p cs st ex at? db r db2 hres hwf hord
  | addStepTree sid p c ex gs =>
    show WF (commit db (addStepTree sid p c ex gs db)) ∧ orderInv (commit db (addStepTree sid p c ex gs db))
    cases hres : addStepTree sid p c ex gs db with
    | error e =>
      exact ⟨hwf, hord⟩
    | ok pair =>
      obtain ⟨r, db2⟩ := pair
      exact addStepTree_preserves sid p c ex gs db r db2 hres hwf hord
  | moveStep i t =>
    show WF (commit db (moveStep i t db)) ∧ orderInv (commit db (moveStep i t db))
    cases hres : moveStep i t db with
    | error e =>
      exact ⟨hwf, hord⟩
    | ok pair =>
      obtain ⟨r, db2⟩ := pair
      exact moveStep_preserves i t db r db2 hres hwf hord
  | deleteSteps sid ids =>
    show WF (commit db (deleteSteps sid ids db)) ∧ orderInv (commit db (deleteSteps sid ids db))
    cases hres : deleteSteps sid ids db with
    | error e =>
      exact ⟨hwf, hord⟩
    | ok pair =>
      obtain ⟨r, db2⟩ := pair
      exact deleteSteps_preserves sid ids db r db2 hres hwf hord
  | updateStep sid i ch => exact hop.elim
  | setStepDoneWithGoals sid i ag => exact hop.elim
  | addGoalsBatch sid s cs st => exact hop.elim
  | updateGoal sid i ch => exact hop.elim
  | setGoalStatus sid i st => exact hop.elim
  | setGoalsStatus sid ids st => exact hop.elim
  | deleteGoals sid ids => exact hop.elim
  | updatePlan sid i ch => exact hop.elim
  | deletePlan i => exact hop.elim
  | setActivePlan sid p tk => exact hop.elim
  | clearActivePlan sid => exact hop.elim

/-- C2: starting from a well-formed store satisfying the ordering invariant
(the empty store qualifies), any sequence of step-structure operations
(`addPlanTree`, `addStepsBatch`, `addStepTree`, `moveStep`, `deleteSteps`)
preserves well-formedness and keeps, for every plan, the multiset of its
steps' sort positions exactly `{1..N}`. -/
theorem C2_step_order_invariant (db : DB) (ops : List EngineOp)
    (hops : ∀ op ∈ ops, isStepStructureOp op)
    (hwf : WF db) (hord : orderInv db) :
    WF (applyOps db ops) ∧ orderInv (applyOps db ops) := by
  induction ops generalizing db with
  | nil => exact ⟨hwf, hord⟩
  | cons op rest ih =>
    obtain ⟨hwf2, hord2⟩ := structureOp_preserves db op
      (hops op (List.mem_cons_self op rest)) hwf hord
    exact ih (applyOp db op) (fun o ho => hops o (List.mem_cons_of_mem op ho)) hwf2 hord2

/-- Witness for C2: a concrete run — create a plan tree with two steps, batch-insert
one step at position 2, move step 1 to the end, then delete one step. -/
theorem C2_witness :
    (∀ op ∈ ([.addPlanTree "t" "c" [⟨"s1", Executor.ai, ["g1"]⟩, ⟨"s2", Executor.human, []⟩],
        .addStepsBatch "sess" 1 ["s3"] Status.todo Executor.ai (some 2),
        .moveStep 1 (3 : Int),
        .deleteSteps "sess" [2]] : List EngineOp), isStepStructureOp op) ∧
    WF DB.empty ∧ orderInv DB.empty ∧
    (WF (applyOps DB.empty
        [.addPlanTree "t" "c" [⟨"s1", Executor.ai, ["g1"]⟩, ⟨"s2", Executor.human, []⟩],
         .addStepsBatch "sess" 1 ["s3"] Status.todo Executor.ai (some 2),
         .moveStep 1 (3 : Int),
         .deleteSteps "sess" [2]]) ∧
      orderInv (applyOps DB.empty
        [.addPlanTree "t" "c" [⟨"s1", Executor.ai, ["g1"]⟩, ⟨"s2", Executor.human, []⟩],
         .addStepsBatch "sess" 1 ["s3"] Status.todo Executor.ai (some 2),
         .moveStep 1 (3 : Int),
         .deleteSteps "sess" [2]])) :=
  ⟨by decide, by decide, by decide,
    C2_step_order_invariant DB.empty
      [.addPlanTree "t" "c" [⟨"s1", Executor.ai, ["g1"]⟩, ⟨"s2", Executor.human, []⟩],
       .addStepsBatch "sess" 1 ["s3"] Status.todo Executor.ai (some 2),
       .moveStep 1 (3 : Int),
       .deleteSteps "sess" [2]] (by decide) (by decide) (by decide)⟩


end Planpilot
